import Mathlib

/-!
Verification development for the milestone funnel analysis engine of the
`ahitool` repository: a shallow embedding of `src/jobs.rs` (the per-job
analysis state machine) and `src/job_tracker.rs` (the `JobTracker` bucket
grid), together with theorems settling the specification claims.

Modelling conventions:
* `chrono::DateTime<Utc>` timestamps and `chrono::TimeDelta` durations are
  modelled as integers; only ordering, subtraction and addition are used by
  the embedded code, and division of a duration by a count is integer
  division.
* Rust panics (`assert!`, `expect`, out-of-bounds indexing) are modelled by
  returning `none` from the embedded operation.
* The grid of a `JobTracker<M, N, J>` is a total function `ℕ → ℕ → Option
  (Bucket J)` together with the dimensions `M` and `N`; cells outside the
  `M × N` range are `none`, and indexing a kind out of range is a panic.
* `f64` conversion rates are modelled as exact rationals.
-/

namespace Ahitool

/-- chrono timestamps, modelled as integers. -/
abbrev Timestamp := Int

/-- chrono durations, modelled as integers. -/
abbrev TimeDelta := Int

/-- The five pipeline milestones of `src/jobs.rs`, in declaration order. -/
inductive Milestone
  | leadAcquired
  | appointmentMade
  | contingencySigned
  | contractSigned
  | installed
deriving DecidableEq

/-- `Milestone::NUM_VARIANTS`. -/
def Milestone.NUM_VARIANTS : Nat := 5

/-- `Milestone::into_int`. -/
def Milestone.into_int : Milestone → Nat
  | .leadAcquired => 0
  | .appointmentMade => 1
  | .contingencySigned => 2
  | .contractSigned => 3
  | .installed => 4

/-- `Milestone::ordered_iter`, as the list of the five milestones in order. -/
def Milestone.orderedList : List Milestone :=
  [.leadAcquired, .appointmentMade, .contingencySigned, .contractSigned, .installed]

/-- The per-milestone dates of a job (`MilestoneDates` in `src/jobs.rs`). -/
structure MilestoneDates where
  appointment_date : Option Timestamp
  contingency_date : Option Timestamp
  contract_date : Option Timestamp
  install_date : Option Timestamp
  loss_date : Option Timestamp
deriving DecidableEq

/-- The `Index<Milestone>` impl for `MilestoneDates`: `LeadAcquired` has no
timestamp and always yields `none`. -/
def MilestoneDates.get (d : MilestoneDates) : Milestone → Option Timestamp
  | .leadAcquired => none
  | .appointmentMade => d.appointment_date
  | .contingencySigned => d.contingency_date
  | .contractSigned => d.contract_date
  | .installed => d.install_date

/-- `MilestoneDates::timestamps_up_to`: the dates of all milestones up to and
including `stage`, in order. -/
def MilestoneDates.timestamps_up_to (d : MilestoneDates) (stage : Milestone) :
    List (Option Timestamp) :=
  (Milestone.orderedList.takeWhile (fun s => decide (s.into_int ≤ stage.into_int))).map d.get

/-- A raw job record (`Job` in `src/jobs.rs`). -/
structure Job where
  jnid : String
  milestone_dates : MilestoneDates
  sales_rep : Option String
  insurance_checkbox : Bool
  insurance_claim_number : Option String
  insurance_company_name : Option String
  job_number : Option String
  customer_name : Option String
deriving DecidableEq

/-- The three job kinds (`JobKind` in `src/jobs.rs`). -/
inductive JobKind
  | insuranceWithContingency
  | insuranceWithoutContingency
  | retail
deriving DecidableEq

/-- `JobKind::NUM_VARIANTS`. -/
def JobKind.NUM_VARIANTS : Nat := 3

/-- `JobKind::into_int`. -/
def JobKind.into_int : JobKind → Nat
  | .insuranceWithContingency => 0
  | .insuranceWithoutContingency => 1
  | .retail => 2

/-- The validated, classified view of a job (`AnalyzedJob` in `src/jobs.rs`). -/
structure AnalyzedJob where
  job : Job
  kind : JobKind
  timestamps : List (Option Timestamp)
  loss_timestamp : Option Timestamp
deriving DecidableEq

/-- `AnalyzedJob::is_settled`. -/
def AnalyzedJob.is_settled (a : AnalyzedJob) : Bool :=
  a.loss_timestamp.isSome || a.timestamps.length = Milestone.NUM_VARIANTS

/-- The four data-quality errors of the analysis state machine
(`JobAnalysisError` in `src/jobs.rs`). -/
inductive JobAnalysisError
  | contingencyWithoutInsurance
  | inconsistentInsuranceInfo
  | outOfOrderDates (m : Option Milestone)
  | skippedDates (m : Milestone)
deriving DecidableEq

/-- The mutable state threaded through the milestone loop of
`TryFrom<Job> for AnalyzedJob`. -/
structure AnalysisState where
  previous_date : Option Timestamp
  current_milestone : Milestone
  in_progress : Bool
  kind : JobKind
deriving DecidableEq

/-- One iteration of the milestone loop of `TryFrom<Job> for AnalyzedJob`
(`src/jobs.rs`, the body of the `for milestone in ...skip(1)` loop). -/
def analyzeStep (job : Job) (st : AnalysisState) (milestone : Milestone) :
    Except JobAnalysisError AnalysisState :=
  let date := job.milestone_dates.get milestone
  if st.in_progress then
    match date with
    | some date =>
      let st1 := { st with current_milestone := milestone }
      if milestone = Milestone.contingencySigned ∧ job.insurance_claim_number = none then
        Except.error JobAnalysisError.contingencyWithoutInsurance
      else
        let st2 :=
          if milestone = Milestone.contractSigned
              ∧ job.milestone_dates.contingency_date = none
              ∧ job.insurance_claim_number.isSome = true then
            { st1 with kind := JobKind.insuranceWithoutContingency }
          else st1
        match st2.previous_date with
        | some p =>
          if date < p then Except.error (JobAnalysisError.outOfOrderDates (some milestone))
          else Except.ok { st2 with previous_date := some date }
        | none => Except.ok { st2 with previous_date := some date }
    | none =>
      if milestone ≠ Milestone.contingencySigned then
        Except.ok { st with in_progress := false }
      else
        Except.ok st
  else
    match date with
    | some _ => Except.error (JobAnalysisError.skippedDates st.current_milestone)
    | none => Except.ok st

/-- The milestone loop of `TryFrom<Job> for AnalyzedJob`, iterated over a list
of milestones. -/
def analyzeLoop (job : Job) : List Milestone → AnalysisState →
    Except JobAnalysisError AnalysisState
  | [], st => Except.ok st
  | m :: rest, st =>
    match analyzeStep job st m with
    | Except.error e => Except.error e
    | Except.ok st' => analyzeLoop job rest st'

/-- The initial loop state of `TryFrom<Job> for AnalyzedJob`: no previous
date, current milestone `LeadAcquired`, retracing in progress, and the kind
determined by the insurance checkbox. -/
def initState (job : Job) : AnalysisState :=
  { previous_date := none
    current_milestone := Milestone.leadAcquired
    in_progress := true
    kind :=
      if job.insurance_checkbox then JobKind.insuranceWithContingency else JobKind.retail }

/-- The successful result of the analysis (`Ok(AnalyzedJob { .. })`). -/
def mkAnalyzed (job : Job) (st : AnalysisState) : AnalyzedJob :=
  { job := job
    kind := st.kind
    timestamps := job.milestone_dates.timestamps_up_to st.current_milestone
    loss_timestamp := job.milestone_dates.loss_date }

/-- `TryFrom<Job> for AnalyzedJob` (`src/jobs.rs`): the whole analysis state
machine. -/
def analyze (job : Job) : Except (Job × JobAnalysisError) AnalyzedJob :=
  if job.insurance_checkbox = false
      ∧ (job.insurance_company_name.isSome = true ∨ job.insurance_claim_number.isSome = true) then
    Except.error (job, JobAnalysisError.inconsistentInsuranceInfo)
  else
    match analyzeLoop job (Milestone.orderedList.drop 1) (initState job) with
    | Except.error e => Except.error (job, e)
    | Except.ok st =>
      match job.milestone_dates.loss_date with
      | some loss_date =>
        match st.previous_date with
        | some p =>
          if loss_date < p then Except.error (job, JobAnalysisError.outOfOrderDates none)
          else Except.ok (mkAnalyzed job st)
        | none => Except.ok (mkAnalyzed job st)
      | none => Except.ok (mkAnalyzed job st)

section Tracker

variable {J : Type}

/-- One accumulator cell of the grid (`Bucket<J>` in `src/job_tracker.rs`). -/
structure Bucket (J : Type) where
  achieved : List J
  cum_achieve_time : TimeDelta
  cum_loss_time : TimeDelta
deriving DecidableEq

/-- `Bucket::default`: empty job list and zero accumulated times. -/
def Bucket.empty : Bucket J :=
  { achieved := [], cum_achieve_time := 0, cum_loss_time := 0 }

/-- The funnel bucket grid (`JobTracker<M, N, J>` in `src/job_tracker.rs`).
The const generics `M` and `N` are carried as fields; `buckets k m` is
meaningful for `k < M` and `m < N`, and indexing a kind `k ≥ M` is a panic in
the source. -/
structure JobTracker (J : Type) where
  M : Nat
  N : Nat
  buckets : Nat → Nat → Option (Bucket J)

/-- `JobTracker::new`: a grid with an empty bucket wherever the mask is set. -/
def JobTracker.new (M N : Nat) (mask : Nat → Nat → Bool) : JobTracker J :=
  { M := M, N := N
    buckets := fun k m => if k < M ∧ m < N ∧ mask k m = true then some Bucket.empty else none }

/-- Overwrite one cell of the grid (the effect of mutating
`self.buckets[kind][milestone]` through a `&mut` borrow). -/
def JobTracker.setBucket (t : JobTracker J) (kind milestone : Nat) (b : Bucket J) :
    JobTracker J :=
  { t with
    buckets := fun k m => if k = kind ∧ m = milestone then some b else t.buckets k m }

/-- The achieved list at a cell, `[]` for a masked-out cell. -/
def JobTracker.achievedAt (t : JobTracker J) (kind milestone : Nat) : List J :=
  match t.buckets kind milestone with
  | some b => b.achieved
  | none => []

/-- The accumulated loss time at a cell, `0` for a masked-out cell. -/
def JobTracker.cumLossAt (t : JobTracker J) (kind milestone : Nat) : TimeDelta :=
  match t.buckets kind milestone with
  | some b => b.cum_loss_time
  | none => 0

/-- The milestone loop of `JobTracker::add_job`: walk the timestamps slice
starting at milestone index `idx`, pushing the job into every applicable
bucket it covers and accumulating achieve times; `latest` is the rolling
latest known timestamp.  Returns the updated grid and the final `latest`, or
`none` on the assertion that a present timestamp must correspond to an
applicable milestone. -/
def JobTracker.add_job_loop (job : J) (kind : Nat) :
    List (Option Timestamp) → Nat → Option Timestamp → JobTracker J →
    Option (JobTracker J × Option Timestamp)
  | [], _, latest, t => some (t, latest)
  | ts :: rest, idx, latest, t =>
    match t.buckets kind idx with
    | none =>
      match ts with
      | some _ => none
      | none => JobTracker.add_job_loop job kind rest (idx + 1) latest t
    | some bucket =>
      let bucket1 : Bucket J := { bucket with achieved := bucket.achieved ++ [job] }
      match ts with
      | none => JobTracker.add_job_loop job kind rest (idx + 1) latest (t.setBucket kind idx bucket1)
      | some d =>
        let delta : TimeDelta :=
          match latest with
          | some l => d - l
          | none => 0
        let bucket2 : Bucket J :=
          { bucket1 with cum_achieve_time := bucket1.cum_achieve_time + delta }
        JobTracker.add_job_loop job kind rest (idx + 1) (some d) (t.setBucket kind idx bucket2)

/-- `JobTracker::bucket_after`, as the index of the first applicable bucket of
the row strictly after `milestone`. -/
def JobTracker.bucket_after_idx (t : JobTracker J) (kind milestone : Nat) : Option Nat :=
  (List.range' (milestone + 1) (t.N - (milestone + 1))).find?
    (fun ms => (t.buckets kind ms).isSome)

/-- `JobTracker::add_job` (`src/job_tracker.rs`).  `none` models a panic: the
length assertion, the out-of-range kind index, the present-timestamp-on-
inapplicable-milestone assertion, the `expect` on `bucket_after`, and the
final assertion that an unlost job reached all milestones. -/
def JobTracker.add_job (t : JobTracker J) (job : J) (kind : Nat)
    (timestamps : List (Option Timestamp)) (loss_timestamp : Option Timestamp) :
    Option (JobTracker J) :=
  if kind < t.M ∧ 0 < timestamps.length ∧ timestamps.length ≤ t.N then
    match JobTracker.add_job_loop job kind timestamps 0 none t with
    | none => none
    | some (t', latest) =>
      match loss_timestamp with
      | some l =>
        let loss_time : TimeDelta :=
          match latest with
          | some lt => l - lt
          | none => 0
        match t'.bucket_after_idx kind (timestamps.length - 1) with
        | none => none
        | some i =>
          match t'.buckets kind i with
          | none => none
          | some b =>
            some (t'.setBucket kind i { b with cum_loss_time := b.cum_loss_time + loss_time })
      | none => if timestamps.length = t.N then some t' else none
  else none

/-- `JobTracker::bucket_before`: the nearest applicable bucket of the row
strictly before `milestone`, found by scanning downward. -/
def JobTracker.bucket_before (t : JobTracker J) (kind milestone : Nat) : Option (Bucket J) :=
  (List.range milestone).reverse.findSome? (fun ms => t.buckets kind ms)

/-- Collect the buckets of the given kinds at a milestone, `none` (panic) if
any requested kind cannot reach the milestone. -/
def JobTracker.collectBuckets (t : JobTracker J) (milestone : Nat) :
    List Nat → Option (List (Bucket J))
  | [] => some []
  | k :: rest =>
    match t.buckets k milestone with
    | none => none
    | some b =>
      match t.collectBuckets milestone rest with
      | none => none
      | some bs => some (b :: bs)

/-- The result of `JobTracker::calc_stats` (`CalcStatsResult<J>`). -/
structure CalcStatsResult (J : Type) where
  achieved : List J
  conversion_rate : Option ℚ
  average_time_to_achieve : TimeDelta
deriving DecidableEq

/-- `JobTracker::calc_stats` (`src/job_tracker.rs`): `none` models the panics
(out-of-range indices and a requested kind that cannot reach the milestone). -/
def JobTracker.calc_stats (t : JobTracker J) (milestone : Nat) (kinds : List Nat) :
    Option (CalcStatsResult J) :=
  if milestone < t.N ∧ ∀ k ∈ kinds, k < t.M then
    match t.collectBuckets milestone kinds with
    | none => none
    | some buckets =>
      let total : List J := (buckets.map (fun b => b.achieved)).flatten
      let num_total : Nat := total.length
      let num_potential : Nat :=
        ((kinds.zip buckets).map (fun p =>
          match t.bucket_before p.1 milestone with
          | some b => b.achieved.length
          | none => p.2.achieved.length)).sum
      let conversion_rate : Option ℚ :=
        if num_potential = 0 then none
        else some ((num_total : ℚ) / (num_potential : ℚ))
      let total_time_to_achieve : TimeDelta := (buckets.map (fun b => b.cum_achieve_time)).sum
      let average_time_to_achieve : TimeDelta :=
        if num_total = 0 then 0 else total_time_to_achieve / (num_total : Int)
      some { achieved := total
             conversion_rate := conversion_rate
             average_time_to_achieve := average_time_to_achieve }
  else none

/-- One row of `JobTracker::calc_stats_of_loss`: the row's lost jobs (those at
milestone index 1 that are absent from the final milestone) and the row's
loss time summed over milestone indices 2 and beyond; `none` models the two
`expect`s on the row's second and final buckets. -/
def JobTracker.lossRow [DecidableEq J] (t : JobTracker J) (k : Nat) :
    Option (List J × TimeDelta) :=
  match t.buckets k (t.N - 1) with
  | none => none
  | some installed =>
    match t.buckets k 1 with
    | none => none
    | some second =>
      let rowLoss : TimeDelta :=
        ((((List.range t.N).drop 2).filterMap (t.buckets k)).map
          (fun b => b.cum_loss_time)).sum
      some (second.achieved.filter (fun j => decide (j ∉ installed.achieved)), rowLoss)

/-- The row loop of `JobTracker::calc_stats_of_loss`, over a list of kinds. -/
def JobTracker.lossRows [DecidableEq J] (t : JobTracker J) :
    List Nat → Option (List (List J × TimeDelta))
  | [] => some []
  | k :: rest =>
    match t.lossRow k with
    | none => none
    | some row =>
      match t.lossRows rest with
      | none => none
      | some rows => some (row :: rows)

/-- `JobTracker::calc_stats_of_loss` (`src/job_tracker.rs`). -/
def JobTracker.calc_stats_of_loss [DecidableEq J] (t : JobTracker J) :
    Option (List J × TimeDelta) :=
  match t.lossRows (List.range t.M) with
  | none => none
  | some rows =>
    let total_lost := (rows.map Prod.fst).flatten
    let total_loss_time := (rows.map Prod.snd).sum
    let average_loss_time : TimeDelta :=
      if total_lost.length = 0 then 0 else total_loss_time / (total_lost.length : Int)
    some (total_lost, average_loss_time)

/-- The index of the nearest preceding applicable milestone of a row, written
as a downward recursion (the specification's "nearest preceding applicable
milestone" for the conversion-rate denominator). -/
def nearestPrecedingApplicable (t : JobTracker J) (kind : Nat) : Nat → Option Nat
  | 0 => none
  | m + 1 =>
    if (t.buckets kind m).isSome = true then some m
    else nearestPrecedingApplicable t kind m

/-- The specification's per-kind conversion potential: the achieved count at
the nearest preceding applicable milestone, falling back to the achieved
count at the target milestone itself. -/
def potentialOfKind (t : JobTracker J) (kind milestone : Nat) : Nat :=
  match nearestPrecedingApplicable t kind milestone with
  | some j => (t.achievedAt kind j).length
  | none => (t.achievedAt kind milestone).length

/-- The specification's conversion-rate denominator: the per-kind potentials
summed over the requested kinds. -/
def potentialTotal (t : JobTracker J) (milestone : Nat) (kinds : List Nat) : Nat :=
  (kinds.map (fun k => potentialOfKind t k milestone)).sum

/-- The specification's total loss time for `calc_stats_of_loss`: the
accumulated loss times of all applicable buckets at milestone indices 2 and
beyond, summed across every row. -/
def specTotalLossTime (t : JobTracker J) : TimeDelta :=
  ((List.range t.M).map (fun k =>
    (((List.range t.N).filter (fun m => decide (2 ≤ m))).map (fun m => t.cumLossAt k m)).sum)).sum

/-- The last present timestamp of a slice, i.e. the final value of the rolling
`latest_timestamp` of `add_job` when starting from `none`. -/
def lastSome : List (Option Timestamp) → Option Timestamp
  | [] => none
  | none :: rest => lastSome rest
  | some d :: rest =>
    match lastSome rest with
    | some x => some x
    | none => some d

/-- The loss time attributed by `add_job`: the elapsed time from the latest
known milestone timestamp to the loss point, zero when no milestone timestamp
is known. -/
def lossElapsed (ts : List (Option Timestamp)) (l : Timestamp) : TimeDelta :=
  match lastSome ts with
  | some p => l - p
  | none => 0

/-- One recorded `add_job` call. -/
structure Insertion (J : Type) where
  job : J
  kind : Nat
  timestamps : List (Option Timestamp)
  loss_timestamp : Option Timestamp

/-- Replay a sequence of `add_job` calls, `none` as soon as one panics. -/
def applyInsertions (t : JobTracker J) : List (Insertion J) → Option (JobTracker J)
  | [] => some t
  | i :: rest =>
    match t.add_job i.job i.kind i.timestamps i.loss_timestamp with
    | none => none
    | some t' => applyInsertions t' rest

/-- The number of distinct jobs among the insertions that carry a present
timestamp at milestone index `m` under a kind belonging to `kinds` (the
count named by the claim about `calc_stats(m, kinds).achieved.len()`). -/
def distinctJobsWithTimestampAt [DecidableEq J] (ins : List (Insertion J)) (m : Nat)
    (kinds : List Nat) : Nat :=
  ((ins.filter (fun i =>
    decide (i.kind ∈ kinds) && (i.timestamps.getD m none).isSome)).map
      (fun i => i.job)).dedup.length

end Tracker

/-- The applicability mask of `build_job_tracker` in `src/job_tracker.rs`. -/
def buildMask : Nat → Nat → Bool := fun k m =>
  (([[true, true, true, true, true],
     [true, true, false, true, true],
     [true, true, false, true, true]].getD k []).getD m false)

/-- `build_job_tracker`, with jobs represented by natural-number identities. -/
def build_job_tracker : JobTracker Nat :=
  JobTracker.new 3 5 buildMask

/-- An insurance job with no claim number whose contingency date precedes its
appointment date. -/
def jobC6 : Job :=
  { jnid := ""
    sales_rep := none
    insurance_checkbox := true
    insurance_claim_number := none
    insurance_company_name := none
    job_number := none
    customer_name := none
    milestone_dates :=
      { appointment_date := some 5
        contingency_date := some 3
        contract_date := none
        install_date := none
        loss_date := none } }

/-- An insurance job with a claim number, no contingency date, an in-order
contract date, but an install date earlier than the contract date. -/
def jobC7 : Job :=
  { jnid := ""
    sales_rep := none
    insurance_checkbox := true
    insurance_claim_number := some "x"
    insurance_company_name := none
    job_number := none
    customer_name := none
    milestone_dates :=
      { appointment_date := some 1
        contingency_date := none
        contract_date := some 3
        install_date := some 2
        loss_date := none } }

/-- A non-insurance job with a contingency date but no appointment date. -/
def jobC9 : Job :=
  { jnid := ""
    sales_rep := none
    insurance_checkbox := false
    insurance_claim_number := none
    insurance_company_name := none
    job_number := none
    customer_name := none
    milestone_dates :=
      { appointment_date := none
        contingency_date := some 2
        contract_date := none
        install_date := none
        loss_date := none } }

/-- A non-insurance job whose pipeline stops after the appointment, with a
later install date present. -/
def jobW5 : Job :=
  { jnid := ""
    sales_rep := none
    insurance_checkbox := false
    insurance_claim_number := none
    insurance_company_name := none
    job_number := none
    customer_name := none
    milestone_dates :=
      { appointment_date := some 1
        contingency_date := none
        contract_date := none
        install_date := some 9
        loss_date := none } }

/-- A mid-analysis state: previous date 5, last milestone AppointmentMade,
retracing in progress. -/
def stW : AnalysisState :=
  { previous_date := some 5
    current_milestone := Milestone.appointmentMade
    in_progress := true
    kind := JobKind.retail }

/-- The same mid-analysis state with retracing already terminated. -/
def stWf : AnalysisState :=
  { previous_date := some 5
    current_milestone := Milestone.appointmentMade
    in_progress := false
    kind := JobKind.retail }

/-- An insurance job with a claim number, appointment date 5 and an earlier
contract date 3. -/
def jobW6a : Job :=
  { jnid := ""
    sales_rep := none
    insurance_checkbox := true
    insurance_claim_number := some "x"
    insurance_company_name := none
    job_number := none
    customer_name := none
    milestone_dates :=
      { appointment_date := some 5
        contingency_date := none
        contract_date := some 3
        install_date := none
        loss_date := none } }

/-- An insurance job with a claim number whose only milestone date is the
appointment at 5, and a loss date 2 earlier than it. -/
def jobW6c : Job :=
  { jnid := ""
    sales_rep := none
    insurance_checkbox := true
    insurance_claim_number := some "x"
    insurance_company_name := none
    job_number := none
    customer_name := none
    milestone_dates :=
      { appointment_date := some 5
        contingency_date := none
        contract_date := none
        install_date := none
        loss_date := some 2 } }

/-- An insurance job with a claim number, no contingency date, and in-order
appointment, contract and install dates. -/
def jobW7 : Job :=
  { jnid := ""
    sales_rep := none
    insurance_checkbox := true
    insurance_claim_number := some "c"
    insurance_company_name := none
    job_number := none
    customer_name := none
    milestone_dates :=
      { appointment_date := some 1
        contingency_date := none
        contract_date := some 3
        install_date := some 4
        loss_date := none } }

/-- An insurance job with a claim number and all four dates in order. -/
def jobW8 : Job :=
  { jnid := ""
    sales_rep := none
    insurance_checkbox := true
    insurance_claim_number := some "c"
    insurance_company_name := none
    job_number := none
    customer_name := none
    milestone_dates :=
      { appointment_date := some 1
        contingency_date := some 2
        contract_date := some 3
        install_date := some 4
        loss_date := none } }

/-- The analysis result of `jobW8`. -/
def ajW8 : AnalyzedJob :=
  { job := jobW8
    kind := JobKind.insuranceWithContingency
    timestamps := [none, some 1, some 2, some 3, some 4]
    loss_timestamp := none }

/-- A non-insurance job with both an appointment date and a contingency
date. -/
def jobW9 : Job :=
  { jnid := ""
    sales_rep := none
    insurance_checkbox := false
    insurance_claim_number := none
    insurance_company_name := none
    job_number := none
    customer_name := none
    milestone_dates :=
      { appointment_date := some 1
        contingency_date := some 2
        contract_date := none
        install_date := none
        loss_date := none } }

section TrackerLemmas

variable {J : Type}

theorem setBucket_buckets (t : JobTracker J) (kind milestone : Nat) (b : Bucket J) (k m : Nat) :
    (t.setBucket kind milestone b).buckets k m =
      if k = kind ∧ m = milestone then some b else t.buckets k m := rfl

theorem setBucket_M (t : JobTracker J) (kind milestone : Nat) (b : Bucket J) :
    (t.setBucket kind milestone b).M = t.M := rfl

theorem setBucket_N (t : JobTracker J) (kind milestone : Nat) (b : Bucket J) :
    (t.setBucket kind milestone b).N = t.N := rfl

theorem cumLossAt_eq (t : JobTracker J) (k m : Nat) :
    t.cumLossAt k m =
      (match t.buckets k m with
       | some b => b.cum_loss_time
       | none => (0 : TimeDelta)) := rfl

theorem setBucket_isSome (t : JobTracker J) {kind idx : Nat} {bucket : Bucket J}
    (hb : t.buckets kind idx = some bucket) (b : Bucket J) (k m : Nat) :
    ((t.setBucket kind idx b).buckets k m).isSome = (t.buckets k m).isSome := by
  by_cases hkm : k = kind ∧ m = idx
  · obtain ⟨rfl, rfl⟩ := hkm
    rw [setBucket_buckets, if_pos ⟨rfl, rfl⟩, hb]
    rfl
  · rw [setBucket_buckets, if_neg hkm]

theorem setBucket_cumLossAt (t : JobTracker J) {kind idx : Nat} {bucket : Bucket J}
    (hb : t.buckets kind idx = some bucket) (b : Bucket J)
    (hloss : b.cum_loss_time = bucket.cum_loss_time) (k m : Nat) :
    (t.setBucket kind idx b).cumLossAt k m = t.cumLossAt k m := by
  by_cases hkm : k = kind ∧ m = idx
  · obtain ⟨rfl, rfl⟩ := hkm
    unfold JobTracker.cumLossAt
    rw [setBucket_buckets, if_pos ⟨rfl, rfl⟩, hb]
    exact hloss
  · unfold JobTracker.cumLossAt
    rw [setBucket_buckets, if_neg hkm]

theorem setBucket_achievedAt (t : JobTracker J) {kind idx : Nat} (b : Bucket J) (k m : Nat) :
    (t.setBucket kind idx b).achievedAt k m =
      if k = kind ∧ m = idx then b.achieved else t.achievedAt k m := by
  by_cases hkm : k = kind ∧ m = idx
  · obtain ⟨rfl, rfl⟩ := hkm
    unfold JobTracker.achievedAt
    rw [setBucket_buckets, if_pos ⟨rfl, rfl⟩, if_pos ⟨rfl, rfl⟩]
  · unfold JobTracker.achievedAt
    rw [setBucket_buckets, if_neg hkm, if_neg hkm]

theorem window_shift_iff {k kind m idx n : Nat} (hkm : ¬(k = kind ∧ m = idx))
    (b c : Bool) (hbc : b = c) :
    (k = kind ∧ idx + 1 ≤ m ∧ m < idx + 1 + n ∧ b = true) ↔
    (k = kind ∧ idx ≤ m ∧ m < idx + (n + 1) ∧ c = true) := by
  subst hbc
  constructor
  · rintro ⟨h1, h2, h3, h4⟩
    exact ⟨h1, by omega, by omega, h4⟩
  · rintro ⟨h1, h2, h3, h4⟩
    have hne : m ≠ idx := fun hm => hkm ⟨h1, hm⟩
    exact ⟨h1, by omega, by omega, h4⟩

theorem new_buckets (M N : Nat) (mask : Nat → Nat → Bool) (k m : Nat) :
    (JobTracker.new M N mask (J := J)).buckets k m =
      if k < M ∧ m < N ∧ mask k m = true then some Bucket.empty else none := rfl

theorem achievedAt_eq (t : JobTracker J) (k m : Nat) :
    t.achievedAt k m =
      (match t.buckets k m with
       | some b => b.achieved
       | none => []) := rfl

theorem achievedAt_new (M N : Nat) (mask : Nat → Nat → Bool) (k m : Nat) :
    (JobTracker.new M N mask (J := J)).achievedAt k m = [] := by
  rw [achievedAt_eq, new_buckets]
  by_cases h : k < M ∧ m < N ∧ mask k m = true
  · rw [if_pos h]
    rfl
  · rw [if_neg h]

theorem lastSome_cons_none (rest : List (Option Timestamp)) :
    lastSome (none :: rest) = lastSome rest := rfl

theorem lastSome_cons_some (d : Timestamp) (rest : List (Option Timestamp)) :
    lastSome (some d :: rest) =
      (match lastSome rest with
       | some x => some x
       | none => some d) := rfl

theorem add_job_loop_spec (job : J) (kind : Nat) :
    ∀ (ts : List (Option Timestamp)) (idx : Nat) (latest : Option Timestamp)
      (t t' : JobTracker J) (lat' : Option Timestamp),
      JobTracker.add_job_loop job kind ts idx latest t = some (t', lat') →
      t'.M = t.M ∧ t'.N = t.N ∧
      (∀ k m, (t'.buckets k m).isSome = (t.buckets k m).isSome) ∧
      (∀ k m, t'.cumLossAt k m = t.cumLossAt k m) ∧
      (∀ k m, t'.achievedAt k m = t.achievedAt k m ++
        (if k = kind ∧ idx ≤ m ∧ m < idx + ts.length ∧ (t.buckets k m).isSome = true
          then [job] else [])) ∧
      lat' = (match lastSome ts with
              | some x => some x
              | none => latest)
  | [], idx, latest, t, t', lat', h => by
    simp only [JobTracker.add_job_loop, Option.some.injEq, Prod.mk.injEq] at h
    obtain ⟨rfl, rfl⟩ := h
    refine ⟨rfl, rfl, fun k m => rfl, fun k m => rfl, fun k m => ?_, rfl⟩
    rw [if_neg, List.append_nil]
    rintro ⟨_, h1, h2, _⟩
    simp only [List.length_nil] at h2
    omega
  | o :: rest, idx, latest, t, t', lat', h => by
    simp only [JobTracker.add_job_loop] at h
    cases hb : t.buckets kind idx with
    | none =>
      rw [hb] at h
      cases o with
      | some d =>
        dsimp only at h
        exact absurd h (by simp)
      | none =>
        dsimp only at h
        obtain ⟨hM, hN, hs, hl, ha, hlat⟩ :=
          add_job_loop_spec job kind rest (idx + 1) latest t t' lat' h
        refine ⟨hM, hN, hs, hl, fun k m => ?_, by simpa [lastSome_cons_none] using hlat⟩
        rw [ha k m, List.length_cons]
        by_cases hkm : k = kind ∧ m = idx
        · obtain ⟨rfl, rfl⟩ := hkm
          rw [if_neg, if_neg]
          · rintro ⟨_, _, _, hS⟩
            rw [hb] at hS
            simp at hS
          · rintro ⟨_, h1, _, _⟩
            omega
        · rw [if_congr (window_shift_iff hkm _ _ rfl) rfl rfl]
    | some bucket =>
      rw [hb] at h
      cases o with
      | none =>
        dsimp only at h
        obtain ⟨hM, hN, hs, hl, ha, hlat⟩ :=
          add_job_loop_spec job kind rest (idx + 1) latest _ t' lat' h
        refine ⟨hM, hN, ?_, ?_, fun k m => ?_, by simpa [lastSome_cons_none] using hlat⟩
        · intro k m
          rw [hs k m, setBucket_isSome t hb]
        · intro k m
          rw [hl k m]
          refine setBucket_cumLossAt t hb _ ?_ k m
          rfl
        · rw [ha k m, setBucket_achievedAt, List.length_cons]
          by_cases hkm : k = kind ∧ m = idx
          · obtain ⟨rfl, rfl⟩ := hkm
            rw [if_pos ⟨rfl, rfl⟩, if_neg, if_pos, List.append_nil]
            · unfold JobTracker.achievedAt
              rw [hb]
            · refine ⟨rfl, le_refl _, by omega, ?_⟩
              rw [hb]
              rfl
            · rintro ⟨_, h1, _, _⟩
              omega
          · rw [if_neg hkm,
              if_congr (window_shift_iff hkm _ _ (setBucket_isSome t hb _ k m)) rfl rfl]
      | some d =>
        dsimp only at h
        obtain ⟨hM, hN, hs, hl, ha, hlat⟩ :=
          add_job_loop_spec job kind rest (idx + 1) (some d) _ t' lat' h
        refine ⟨hM, hN, ?_, ?_, fun k m => ?_, ?_⟩
        · intro k m
          rw [hs k m, setBucket_isSome t hb]
        · intro k m
          rw [hl k m]
          refine setBucket_cumLossAt t hb _ ?_ k m
          rfl
        · rw [ha k m, setBucket_achievedAt, List.length_cons]
          by_cases hkm : k = kind ∧ m = idx
          · obtain ⟨rfl, rfl⟩ := hkm
            rw [if_pos ⟨rfl, rfl⟩, if_neg, if_pos, List.append_nil]
            · unfold JobTracker.achievedAt
              rw [hb]
            · refine ⟨rfl, le_refl _, by omega, ?_⟩
              rw [hb]
              rfl
            · rintro ⟨_, h1, _, _⟩
              omega
          · rw [if_neg hkm,
              if_congr (window_shift_iff hkm _ _ (setBucket_isSome t hb _ k m)) rfl rfl]
        · rw [hlat, lastSome_cons_some]
          cases lastSome rest with
          | some x => rfl
          | none => rfl

theorem find?_congr_pointwise {α : Type} (f g : α → Bool) :
    ∀ l : List α, (∀ a ∈ l, f a = g a) → l.find? f = l.find? g
  | [], _ => rfl
  | a :: l, h => by
    have ha := h a (List.mem_cons_self a l)
    simp only [List.find?]
    rw [← ha]
    cases f a with
    | true => rfl
    | false => exact find?_congr_pointwise f g l (fun x hx => h x (List.mem_cons_of_mem a hx))

theorem find?_range'_spec (p : Nat → Bool) :
    ∀ (n s j : Nat), (List.range' s n).find? p = some j →
      s ≤ j ∧ j < s + n ∧ p j = true ∧ ∀ m, s ≤ m → m < j → p m = false
  | 0, s, j, h => by simp [List.range'] at h
  | n + 1, s, j, h => by
    have hr : List.range' s (n + 1) = s :: List.range' (s + 1) n := rfl
    rw [hr] at h
    simp only [List.find?] at h
    cases hp : p s with
    | true =>
      rw [hp] at h
      obtain rfl : s = j := by
        cases h
        rfl
      exact ⟨le_refl s, by omega, hp, fun m h1 h2 => absurd h1 (by omega)⟩
    | false =>
      rw [hp] at h
      obtain ⟨ih1, ih2, ih3, ih4⟩ := find?_range'_spec p n (s + 1) j h
      refine ⟨by omega, by omega, ih3, ?_⟩
      intro m hm1 hm2
      rcases Nat.eq_or_lt_of_le hm1 with hm | hm
      · rw [← hm]
        exact hp
      · exact ih4 m (by omega) hm2

theorem bucket_after_idx_congr {t t' : JobTracker J}
    (hN : t'.N = t.N)
    (hs : ∀ k m, (t'.buckets k m).isSome = (t.buckets k m).isSome)
    (kind ms : Nat) :
    t'.bucket_after_idx kind ms = t.bucket_after_idx kind ms := by
  unfold JobTracker.bucket_after_idx
  rw [hN]
  exact find?_congr_pointwise _ _ _ (fun a _ => hs kind a)

theorem add_job_some_inv {t t' : JobTracker J} {job : J} {kind : Nat}
    {ts : List (Option Timestamp)} {loss : Option Timestamp}
    (h : t.add_job job kind ts loss = some t') :
    (kind < t.M ∧ 0 < ts.length ∧ ts.length ≤ t.N) ∧
    ∃ t₁ lat,
      JobTracker.add_job_loop job kind ts 0 none t = some (t₁, lat) ∧
      ((loss = none ∧ ts.length = t.N ∧ t' = t₁) ∨
        (∃ l i b, loss = some l ∧
          t₁.bucket_after_idx kind (ts.length - 1) = some i ∧
          t₁.buckets kind i = some b ∧
          t' = t₁.setBucket kind i
            { b with cum_loss_time := b.cum_loss_time +
                (match lat with | some lt => l - lt | none => 0) })) := by
  unfold JobTracker.add_job at h
  by_cases hg : kind < t.M ∧ 0 < ts.length ∧ ts.length ≤ t.N
  · rw [if_pos hg] at h
    refine ⟨hg, ?_⟩
    cases hloop : JobTracker.add_job_loop job kind ts 0 none t with
    | none =>
      rw [hloop] at h
      exact absurd h (by simp)
    | some p =>
      obtain ⟨t₁, lat⟩ := p
      rw [hloop] at h
      refine ⟨t₁, lat, rfl, ?_⟩
      cases loss with
      | none =>
        dsimp only at h
        by_cases hlen : ts.length = t.N
        · rw [if_pos hlen] at h
          cases h
          exact Or.inl ⟨rfl, hlen, rfl⟩
        · rw [if_neg hlen] at h
          exact absurd h (by simp)
      | some l =>
        dsimp only at h
        cases hafter : t₁.bucket_after_idx kind (ts.length - 1) with
        | none =>
          rw [hafter] at h
          exact absurd h (by simp)
        | some i =>
          rw [hafter] at h
          dsimp only at h
          cases hbi : t₁.buckets kind i with
          | none =>
            rw [hbi] at h
            exact absurd h (by simp)
          | some b =>
            rw [hbi] at h
            dsimp only at h
            cases h
            exact Or.inr ⟨l, i, b, rfl, rfl, hbi, rfl⟩
  · rw [if_neg hg] at h
    exact absurd h (by simp)

theorem add_job_spec {t t' : JobTracker J} {job : J} {kind : Nat}
    {ts : List (Option Timestamp)} {loss : Option Timestamp}
    (h : t.add_job job kind ts loss = some t') :
    t'.M = t.M ∧ t'.N = t.N ∧
    (∀ k m, (t'.buckets k m).isSome = (t.buckets k m).isSome) ∧
    (∀ k m, t'.achievedAt k m = t.achievedAt k m ++
      (if k = kind ∧ m < ts.length ∧ (t.buckets k m).isSome = true then [job] else [])) := by
  obtain ⟨hg, t₁, lat, hloop, hrest⟩ := add_job_some_inv h
  obtain ⟨hM, hN, hs, _, ha, _⟩ := add_job_loop_spec job kind ts 0 none t t₁ lat hloop
  have ha' : ∀ k m, t₁.achievedAt k m = t.achievedAt k m ++
      (if k = kind ∧ m < ts.length ∧ (t.buckets k m).isSome = true then [job] else []) := by
    intro k m
    rw [ha k m]
    apply congrArg
    apply if_congr _ rfl rfl
    constructor
    · rintro ⟨h1, _, h3, h4⟩
      exact ⟨h1, by omega, h4⟩
    · rintro ⟨h1, h2, h4⟩
      exact ⟨h1, by omega, by omega, h4⟩
  rcases hrest with ⟨_, _, rfl⟩ | ⟨l, i, b, _, hafter, hbi, rfl⟩
  · exact ⟨hM, hN, hs, ha'⟩
  · refine ⟨hM, hN, ?_, ?_⟩
    · intro k m
      rw [setBucket_isSome t₁ hbi, hs k m]
    · intro k m
      rw [setBucket_achievedAt]
      by_cases hkm : k = kind ∧ m = i
      · obtain ⟨rfl, rfl⟩ := hkm
        rw [if_pos ⟨rfl, rfl⟩, ← ha' k m]
        unfold JobTracker.achievedAt
        rw [hbi]
      · rw [if_neg hkm, ha' k m]

theorem match_lastSome_lossElapsed (ts : List (Option Timestamp)) (l : Timestamp) :
    (match (match lastSome ts with
            | some x => some x
            | none => (none : Option Timestamp)) with
     | some lt => l - lt
     | none => (0 : TimeDelta)) = lossElapsed ts l := by
  unfold lossElapsed
  cases lastSome ts with
  | some x => rfl
  | none => rfl

theorem collectBuckets_achieved {t : JobTracker J} {m : Nat} :
    ∀ (kinds : List Nat) (bs : List (Bucket J)),
      t.collectBuckets m kinds = some bs →
      bs.map (fun b => b.achieved) = kinds.map (fun k => t.achievedAt k m) ∧
      ∀ k ∈ kinds, (t.buckets k m).isSome = true
  | [], bs, h => by
    have h' : some ([] : List (Bucket J)) = some bs := h
    cases h'
    exact ⟨rfl, by simp⟩
  | k :: rest, bs, h => by
    unfold JobTracker.collectBuckets at h
    cases hbk : t.buckets k m with
    | none =>
      rw [hbk] at h
      exact absurd h (by simp)
    | some b =>
      rw [hbk] at h
      cases hrest : JobTracker.collectBuckets t m rest with
      | none =>
        rw [hrest] at h
        exact absurd h (by simp)
      | some bs' =>
        rw [hrest] at h
        dsimp only at h
        cases h
        obtain ⟨ih1, ih2⟩ := collectBuckets_achieved rest bs' hrest
        constructor
        · rw [List.map_cons, List.map_cons, ih1]
          congr 1
          rw [achievedAt_eq, hbk]
        · intro k' hk'
          rcases List.mem_cons.mp hk' with rfl | hk'
          · rw [hbk]
            rfl
          · exact ih2 k' hk'

theorem calc_stats_achieved {t : JobTracker J} {m : Nat} {kinds : List Nat}
    {r : CalcStatsResult J} (h : t.calc_stats m kinds = some r) :
    r.achieved.length = (kinds.map (fun k => (t.achievedAt k m).length)).sum ∧
    ∀ k ∈ kinds, (t.buckets k m).isSome = true := by
  unfold JobTracker.calc_stats at h
  by_cases hg : m < t.N ∧ ∀ k ∈ kinds, k < t.M
  · rw [if_pos hg] at h
    cases hcb : t.collectBuckets m kinds with
    | none =>
      rw [hcb] at h
      exact absurd h (by simp)
    | some bs =>
      rw [hcb] at h
      dsimp only at h
      obtain ⟨hmap, hsome⟩ := collectBuckets_achieved kinds bs hcb
      cases h
      refine ⟨?_, hsome⟩
      show ((bs.map (fun b => b.achieved)).flatten).length = _
      rw [List.length_flatten, hmap, List.map_map]
      rfl
  · rw [if_neg hg] at h
    exact absurd h (by simp)

theorem applyInsertions_spec :
    ∀ (ins : List (Insertion J)) (t t' : JobTracker J),
      applyInsertions t ins = some t' →
      t'.M = t.M ∧ t'.N = t.N ∧
      (∀ k m, (t'.buckets k m).isSome = (t.buckets k m).isSome) ∧
      (∀ k m, (t.buckets k m).isSome = true →
        (t'.achievedAt k m).length = (t.achievedAt k m).length +
          (ins.filter (fun i =>
            decide (i.kind = k) && decide (m < i.timestamps.length))).length)
  | [], t, t', h => by
    have h' : some t = some t' := h
    cases h'
    exact ⟨rfl, rfl, fun k m => rfl, fun k m _ => by simp⟩
  | i :: rest, t, t', h => by
    unfold applyInsertions at h
    cases hadd : t.add_job i.job i.kind i.timestamps i.loss_timestamp with
    | none =>
      rw [hadd] at h
      exact absurd h (by simp)
    | some t₁ =>
      rw [hadd] at h
      obtain ⟨hM1, hN1, hs1, ha1⟩ := add_job_spec hadd
      obtain ⟨hM2, hN2, hs2, ha2⟩ := applyInsertions_spec rest t₁ t' h
      refine ⟨hM2.trans hM1, hN2.trans hN1, fun k m => (hs2 k m).trans (hs1 k m), ?_⟩
      intro k m hsome
      have hsome1 : (t₁.buckets k m).isSome = true := by
        rw [hs1 k m]
        exact hsome
      rw [ha2 k m hsome1, ha1 k m, List.length_append, List.filter_cons]
      by_cases hc : i.kind = k ∧ m < i.timestamps.length
      · rw [if_pos ⟨hc.1.symm, hc.2, hsome⟩,
          if_pos (by simp only [Bool.and_eq_true, decide_eq_true_eq]; exact hc)]
        simp only [List.length_cons, List.length_nil]
        omega
      · rw [if_neg (by rintro ⟨h1, h2, _⟩; exact hc ⟨h1.symm, h2⟩),
          if_neg (by simp only [Bool.and_eq_true, decide_eq_true_eq, not_and]
                     exact fun h1 h2 => hc ⟨h1, h2⟩)]
        simp

theorem countP_mem_cons (C : Insertion J → Bool) (k : Nat) (ks : List Nat)
    (hk : k ∉ ks) :
    ∀ ins : List (Insertion J),
      (ins.filter (fun i => decide (i.kind ∈ k :: ks) && C i)).length =
      (ins.filter (fun i => decide (i.kind = k) && C i)).length +
      (ins.filter (fun i => decide (i.kind ∈ ks) && C i)).length
  | [] => by simp
  | i :: ins => by
    have ih := countP_mem_cons C k ks hk ins
    rw [List.filter_cons, List.filter_cons, List.filter_cons]
    by_cases h1 : i.kind = k
    · have h2 : i.kind ∉ ks := by
        rw [h1]
        exact hk
      by_cases hC : C i = true
      · rw [if_pos (by simp [h1, hC]), if_pos (by simp [h1, hC]), if_neg (by simp [h2])]
        simp only [List.length_cons]
        omega
      · rw [if_neg (by simp [hC]), if_neg (by simp [hC]), if_neg (by simp [hC])]
        exact ih
    · by_cases h2 : i.kind ∈ ks
      · by_cases hC : C i = true
        · rw [if_pos (by simp [h2, hC]), if_neg (by simp [h1]), if_pos (by simp [h2, hC])]
          simp only [List.length_cons]
          omega
        · rw [if_neg (by simp [hC]), if_neg (by simp [hC]), if_neg (by simp [hC])]
          exact ih
      · rw [if_neg (by simp [h1, h2]), if_neg (by simp [h1]), if_neg (by simp [h2])]
        exact ih

theorem sum_potList (C : Insertion J → Bool) :
    ∀ (kinds : List Nat), kinds.Nodup →
      ∀ ins : List (Insertion J),
        (kinds.map (fun k =>
          (ins.filter (fun i => decide (i.kind = k) && C i)).length)).sum =
        (ins.filter (fun i => decide (i.kind ∈ kinds) && C i)).length
  | [], _, ins => by simp
  | k :: ks, hnd, ins => by
    obtain ⟨hk, hnd'⟩ := List.nodup_cons.mp hnd
    rw [List.map_cons, List.sum_cons, sum_potList C ks hnd' ins,
      countP_mem_cons C k ks hk ins]

end TrackerLemmas

/-- C10: calling `add_job` without a loss timestamp and with a timestamps
slice shorter than the milestone count fails an assertion; equivalently every
non-panicking `add_job` call supplies a loss timestamp or a full-length
timestamps slice. -/
theorem add_job_requires_loss_or_full {J : Type} :
    (∀ (t : JobTracker J) (job : J) (kind : Nat) (ts : List (Option Timestamp)),
        1 ≤ ts.length → ts.length < t.N → t.add_job job kind ts none = none) ∧
    (∀ (t : JobTracker J) (job : J) (kind : Nat) (ts : List (Option Timestamp))
        (loss : Option Timestamp),
        (t.add_job job kind ts loss).isSome = true →
        loss.isSome = true ∨ ts.length = t.N) := by
  constructor
  · intro t job kind ts h1 h2
    cases hres : t.add_job job kind ts none with
    | none => rfl
    | some t' =>
      obtain ⟨hg, t₁, lat, hloop, hrest⟩ := add_job_some_inv hres
      rcases hrest with ⟨_, hlen, _⟩ | ⟨l, i, b, hcontra, _, _, _⟩
      · omega
      · exact Option.noConfusion hcontra
  · intro t job kind ts loss hIs
    cases hres : t.add_job job kind ts loss with
    | none =>
      rw [hres] at hIs
      exact absurd hIs (by simp)
    | some t' =>
      obtain ⟨hg, t₁, lat, hloop, hrest⟩ := add_job_some_inv hres
      rcases hrest with ⟨_, hlen, _⟩ | ⟨l, i, b, hleq, _, _, _⟩
      · exact Or.inr hlen
      · rw [hleq]
        exact Or.inl rfl

/-- Witness for C10 at a concrete tracker: a two-entry slice with no loss
timestamp panics, and a successful two-entry call indeed supplied a loss
timestamp. -/
theorem add_job_requires_loss_or_full_witness :
    build_job_tracker.add_job 1 0 [none, some 1] none = none ∧
    ((some (3 : Timestamp)).isSome = true ∨
      ([none, some (1 : Timestamp)] : List (Option Timestamp)).length =
        build_job_tracker.N) := by
  constructor
  · exact add_job_requires_loss_or_full.1 build_job_tracker 1 0 [none, some 1]
      (by decide) (by decide)
  · exact add_job_requires_loss_or_full.2 build_job_tracker 1 0 [none, some 1] (some 3)
      (by decide)

/-- C3: when `add_job` is given a loss timestamp, the elapsed time from the
latest known milestone timestamp to the loss point (zero when no milestone
timestamp is known) is added to `cum_loss_time` of the first applicable
bucket strictly after the last reached milestone, no other bucket's
`cum_loss_time` changes, and the call panics when the timestamps slice covers
every milestone. -/
theorem add_job_loss_time_spec {J : Type} :
    (∀ (t : JobTracker J) (job : J) (kind : Nat) (ts : List (Option Timestamp)) (l : Timestamp),
        ts.length = t.N → t.add_job job kind ts (some l) = none) ∧
    (∀ (t : JobTracker J) (job : J) (kind : Nat) (ts : List (Option Timestamp)) (l : Timestamp),
        (t.add_job job kind ts (some l)).isSome = true →
        ∃ j, t.bucket_after_idx kind (ts.length - 1) = some j ∧
          ts.length - 1 < j ∧ j < t.N ∧ (t.buckets kind j).isSome = true ∧
          (∀ m', ts.length - 1 < m' → m' < j → (t.buckets kind m').isSome = false) ∧
          (t.add_job job kind ts (some l)).map (fun t2 => t2.cumLossAt kind j) =
            some (t.cumLossAt kind j + lossElapsed ts l) ∧
          (∀ k m, ¬(k = kind ∧ m = j) →
            (t.add_job job kind ts (some l)).map (fun t2 => t2.cumLossAt k m) =
              some (t.cumLossAt k m))) := by
  constructor
  · intro t job kind ts l hlen
    cases hres : t.add_job job kind ts (some l) with
    | none => rfl
    | some t' =>
      obtain ⟨hg, t₁, lat, hloop, hrest⟩ := add_job_some_inv hres
      obtain ⟨hM, hN, _, _, _, _⟩ := add_job_loop_spec job kind ts 0 none t t₁ lat hloop
      rcases hrest with ⟨hcontra, _, _⟩ | ⟨l', i, b, _, hafter, _, _⟩
      · exact Option.noConfusion hcontra
      · have hz : t₁.N - (ts.length - 1 + 1) = 0 := by omega
        unfold JobTracker.bucket_after_idx at hafter
        rw [hz] at hafter
        exact absurd hafter (by simp [List.range'])
  · intro t job kind ts l hIs
    cases hres : t.add_job job kind ts (some l) with
    | none =>
      rw [hres] at hIs
      exact absurd hIs (by simp)
    | some t' =>
      obtain ⟨hg, t₁, lat, hloop, hrest⟩ := add_job_some_inv hres
      obtain ⟨hM, hN, hs, hl, ha, hlat⟩ := add_job_loop_spec job kind ts 0 none t t₁ lat hloop
      rcases hrest with ⟨hcontra, _, _⟩ | ⟨l', i, b, hleq, hafter, hbi, rfl⟩
      · exact Option.noConfusion hcontra
      · obtain rfl : l = l' := by
          cases hleq
          rfl
        have hafter' : t.bucket_after_idx kind (ts.length - 1) = some i := by
          rw [← bucket_after_idx_congr hN hs]
          exact hafter
        have hspec := find?_range'_spec _ _ _ _ hafter
        obtain ⟨hs1, hs2, hs3, hs4⟩ := hspec
        refine ⟨i, hafter', by omega, by omega, ?_, ?_, ?_, ?_⟩
        · rw [← hs kind i]
          exact hs3
        · intro m' hm1 hm2
          rw [← hs kind m']
          exact hs4 m' (by omega) hm2
        · simp only [Option.map_some']
          apply congrArg
          have hcb : t.cumLossAt kind i = b.cum_loss_time := by
            rw [← hl kind i, cumLossAt_eq, hbi]
          rw [cumLossAt_eq, setBucket_buckets, if_pos ⟨rfl, rfl⟩, hcb, hlat,
            match_lastSome_lossElapsed ts l]
        · intro k m hkm
          simp only [Option.map_some']
          apply congrArg
          rw [cumLossAt_eq, setBucket_buckets, if_neg hkm, ← cumLossAt_eq, hl k m]

/-- Witness for C3 at a concrete tracker: a job lost after the appointment
attributes its loss time to the bucket after the appointment, and adding a
full-length slice together with a loss timestamp panics. -/
theorem add_job_loss_time_spec_witness :
    (build_job_tracker.add_job 5 0 [none, some 1] (some 4)).isSome = true ∧
    (build_job_tracker.add_job 5 0 [none, some 1] (some 4)).map
        (fun t2 => t2.cumLossAt 0 2) = some 3 ∧
    build_job_tracker.add_job 5 0 [none, some 1, some 2, some 3, some 4] (some 9) = none := by
  have h2 := add_job_loss_time_spec.2 build_job_tracker 5 0 [none, some 1] 4 (by decide)
  obtain ⟨j, hj, _, _, _, _, hmap, _⟩ := h2
  have hjv : j = 2 := by
    have : build_job_tracker.bucket_after_idx 0 ([none, some (1 : Timestamp)].length - 1) =
        some 2 := by decide
    rw [this] at hj
    cases hj
    rfl
  subst hjv
  refine ⟨by decide, ?_, ?_⟩
  · rw [hmap]
    decide
  · exact add_job_loss_time_spec.1 build_job_tracker 5 0
      [none, some 1, some 2, some 3, some 4] 9 (by decide)

/-- C1 counterexample: in the tracker built from the real mask, one
non-panicking insertion whose milestone-0 entry is `none` still lands in the
milestone-0 achieved list, so `calc_stats(0, [0]).achieved.len()` is 1 while
the number of distinct jobs inserted with a non-`None` timestamp at milestone
0 is 0. -/
theorem calc_stats_achieved_nonNone_count_cex :
    ((applyInsertions build_job_tracker
        [⟨7, 0, [none, some 1, some 2, some 3, some 4], none⟩]).bind
      (fun t => t.calc_stats 0 [0])).map (fun r => r.achieved.length) = some 1 ∧
    distinctJobsWithTimestampAt
      ([⟨7, 0, [none, some 1, some 2, some 3, some 4], none⟩] : List (Insertion Nat))
      0 [0] = 0 := by
  exact ⟨by decide, by decide⟩

/-- C1 amended: for a tracker built from a mask and a sequence of
non-panicking insertions, `calc_stats(m, kinds).achieved.len()` equals the
number of insertions under a kind in `kinds` whose timestamps slice covers
milestone index `m` (regardless of whether the entry at `m` is `Some`). -/
theorem calc_stats_achieved_len_eq_covered_insertions {J : Type}
    (M N : Nat) (mask : Nat → Nat → Bool) (ins : List (Insertion J))
    (m : Nat) (kinds : List Nat) (hnd : kinds.Nodup)
    (hsome : ((applyInsertions (JobTracker.new M N mask) ins).bind
        (fun t => t.calc_stats m kinds)).isSome = true) :
    ((applyInsertions (JobTracker.new M N mask) ins).bind
        (fun t => t.calc_stats m kinds)).map (fun r => r.achieved.length) =
      some ((ins.filter (fun i =>
        decide (i.kind ∈ kinds) && decide (m < i.timestamps.length))).length) := by
  cases happ : applyInsertions (JobTracker.new M N mask) ins with
  | none =>
    rw [happ] at hsome
    exact absurd hsome (by simp)
  | some t =>
    rw [happ] at hsome
    have hsome' : (t.calc_stats m kinds).isSome = true := hsome
    show (t.calc_stats m kinds).map (fun r => r.achieved.length) = _
    cases hcs : t.calc_stats m kinds with
    | none =>
      rw [hcs] at hsome'
      exact absurd hsome' (by simp)
    | some r =>
      simp only [Option.map_some']
      apply congrArg
      obtain ⟨hlen, hks⟩ := calc_stats_achieved hcs
      obtain ⟨_, _, hs, ha⟩ := applyInsertions_spec ins (JobTracker.new M N mask) t happ
      rw [hlen]
      have hmapeq : kinds.map (fun k => (t.achievedAt k m).length) =
          kinds.map (fun k =>
            (ins.filter (fun i =>
              decide (i.kind = k) && decide (m < i.timestamps.length))).length) := by
        apply List.map_congr_left
        intro k hk
        have hk0 : ((JobTracker.new M N mask (J := J)).buckets k m).isSome = true := by
          rw [← hs k m]
          exact hks k hk
        have := ha k m hk0
        rw [achievedAt_new] at this
        simpa using this
      rw [hmapeq]
      exact sum_potList _ kinds hnd ins

/-- Witness for C1's amended statement at a concrete tracker and insertion
list. -/
theorem calc_stats_achieved_len_eq_covered_insertions_witness :
    ([0] : List Nat).Nodup ∧
    ((applyInsertions (JobTracker.new 3 5 buildMask)
        [(⟨7, 0, [none, some 1, some 2, some 3, some 4], none⟩ : Insertion Nat)]).bind
      (fun t => t.calc_stats 1 [0])).map (fun r => r.achieved.length) =
      some (([(⟨7, 0, [none, some 1, some 2, some 3, some 4], none⟩ : Insertion Nat)].filter
        (fun i => decide (i.kind ∈ [0]) && decide (1 < i.timestamps.length))).length) := by
  refine ⟨by decide, ?_⟩
  exact calc_stats_achieved_len_eq_covered_insertions 3 5 buildMask _ 1 [0]
    (by decide) (by decide)

section ConversionLemmas

variable {J : Type}

theorem bucket_before_eq_nearest (t : JobTracker J) (kind : Nat) :
    ∀ m : Nat, t.bucket_before kind m =
      (match nearestPrecedingApplicable t kind m with
       | some j => t.buckets kind j
       | none => none)
  | 0 => rfl
  | m + 1 => by
    unfold JobTracker.bucket_before
    rw [List.range_succ, List.reverse_append, List.reverse_cons, List.reverse_nil,
      List.nil_append, List.singleton_append, List.findSome?_cons]
    unfold nearestPrecedingApplicable
    cases hb : t.buckets kind m with
    | some b =>
      rw [if_pos (by rfl)]
      exact hb.symm
    | none =>
      rw [if_neg (by simp)]
      exact bucket_before_eq_nearest t kind m

theorem nearest_spec (t : JobTracker J) (kind : Nat) :
    ∀ m : Nat,
      (∀ j, nearestPrecedingApplicable t kind m = some j →
        j < m ∧ (t.buckets kind j).isSome = true ∧
        ∀ j', j < j' → j' < m → (t.buckets kind j').isSome = false) ∧
      (nearestPrecedingApplicable t kind m = none →
        ∀ j, j < m → (t.buckets kind j).isSome = false)
  | 0 =>
    ⟨fun j h => absurd h (by unfold nearestPrecedingApplicable; simp),
      fun _ j hj => absurd hj (by omega)⟩
  | m + 1 => by
    obtain ⟨ih1, ih2⟩ := nearest_spec t kind m
    constructor
    · intro j hj
      unfold nearestPrecedingApplicable at hj
      by_cases hb : (t.buckets kind m).isSome = true
      · rw [if_pos hb] at hj
        cases hj
        exact ⟨by omega, hb, fun j' h1 h2 => absurd h2 (by omega)⟩
      · rw [if_neg hb] at hj
        obtain ⟨hlt, hsome, hmax⟩ := ih1 j hj
        refine ⟨by omega, hsome, ?_⟩
        intro j' h1 h2
        by_cases hjm : j' = m
        · subst hjm
          simpa using hb
        · exact hmax j' h1 (by omega)
    · intro hnone j hj
      unfold nearestPrecedingApplicable at hnone
      by_cases hb : (t.buckets kind m).isSome = true
      · rw [if_pos hb] at hnone
        exact absurd hnone (by simp)
      · rw [if_neg hb] at hnone
        by_cases hjm : j = m
        · subst hjm
          simpa using hb
        · exact ih2 hnone j (by omega)

theorem zip_sum_potential {t : JobTracker J} {m : Nat} :
    ∀ (kinds : List Nat) (bs : List (Bucket J)),
      t.collectBuckets m kinds = some bs →
      ((kinds.zip bs).map (fun p =>
        match t.bucket_before p.1 m with
        | some b => b.achieved.length
        | none => p.2.achieved.length)).sum = potentialTotal t m kinds
  | [], bs, h => by
    have h' : some ([] : List (Bucket J)) = some bs := h
    cases h'
    rfl
  | k :: rest, bs, h => by
    unfold JobTracker.collectBuckets at h
    cases hbk : t.buckets k m with
    | none =>
      rw [hbk] at h
      exact absurd h (by simp)
    | some b =>
      rw [hbk] at h
      cases hrest : JobTracker.collectBuckets t m rest with
      | none =>
        rw [hrest] at h
        exact absurd h (by simp)
      | some bs' =>
        rw [hrest] at h
        dsimp only at h
        cases h
        have ih := zip_sum_potential rest bs' hrest
        rw [List.zip_cons_cons, List.map_cons, List.sum_cons, ih]
        unfold potentialTotal
        rw [List.map_cons, List.sum_cons]
        congr 1
        rw [bucket_before_eq_nearest]
        unfold potentialOfKind
        cases hn : nearestPrecedingApplicable t k m with
        | some j =>
          obtain ⟨_, hsome, _⟩ := (nearest_spec t k m).1 j hn
          dsimp only
          cases hbj : t.buckets k j with
          | none =>
            rw [hbj] at hsome
            simp at hsome
          | some b' =>
            rw [achievedAt_eq, hbj]
        | none =>
          dsimp only
          rw [achievedAt_eq, hbk]

end ConversionLemmas

/-- C2: on a non-panicking `calc_stats` query, the conversion rate is `None`
exactly when the potential denominator is zero, and otherwise equals the size
of the achieved union divided by the potential; the potential sums, per
requested kind, the achieved count of the nearest preceding applicable
milestone, falling back to the target milestone's own achieved count when no
earlier applicable milestone exists. -/
theorem calc_stats_conversion_rate_spec {J : Type} (t : JobTracker J) (m : Nat)
    (kinds : List Nat) (r : CalcStatsResult J)
    (h : t.calc_stats m kinds = some r) :
    (r.conversion_rate = none ↔ potentialTotal t m kinds = 0) ∧
    (potentialTotal t m kinds ≠ 0 →
      r.conversion_rate =
        some ((r.achieved.length : ℚ) / (potentialTotal t m kinds : ℚ))) ∧
    (∀ k ∈ kinds, ∀ j, nearestPrecedingApplicable t k m = some j →
      j < m ∧ (t.buckets k j).isSome = true ∧
      ∀ j', j < j' → j' < m → (t.buckets k j').isSome = false) ∧
    (∀ k ∈ kinds, nearestPrecedingApplicable t k m = none →
      ∀ j, j < m → (t.buckets k j).isSome = false) := by
  have key : (r.conversion_rate = none ↔ potentialTotal t m kinds = 0) ∧
      (potentialTotal t m kinds ≠ 0 →
        r.conversion_rate =
          some ((r.achieved.length : ℚ) / (potentialTotal t m kinds : ℚ))) := by
    unfold JobTracker.calc_stats at h
    by_cases hg : m < t.N ∧ ∀ k ∈ kinds, k < t.M
    · rw [if_pos hg] at h
      cases hcb : t.collectBuckets m kinds with
      | none =>
        rw [hcb] at h
        exact absurd h (by simp)
      | some bs =>
        rw [hcb] at h
        dsimp only at h
        cases h
        have hzip := zip_sum_potential kinds bs hcb
        dsimp only
        rw [hzip]
        constructor
        · by_cases hp : potentialTotal t m kinds = 0
          · simp [hp]
          · simp [hp]
        · intro hp
          rw [if_neg hp]
    · rw [if_neg hg] at h
      exact absurd h (by simp)
  exact ⟨key.1, key.2, fun k _ => (nearest_spec t k m).1, fun k _ => (nearest_spec t k m).2⟩

/-- Witness for C2 at the empty tracker built from the real mask: the query at
milestone 1 over all kinds yields a `None` conversion rate and a zero
potential. -/
theorem calc_stats_conversion_rate_spec_witness :
    build_job_tracker.calc_stats 1 [0, 1, 2] =
      some { achieved := [], conversion_rate := none, average_time_to_achieve := 0 } ∧
    potentialTotal build_job_tracker 1 [0, 1, 2] = 0 := by
  have h : build_job_tracker.calc_stats 1 [0, 1, 2] =
      some { achieved := [], conversion_rate := none, average_time_to_achieve := 0 } := by
    decide
  exact ⟨h, ((calc_stats_conversion_rate_spec build_job_tracker 1 [0, 1, 2] _ h).1).mp rfl⟩

section LossLemmas

variable {J : Type}

theorem filterMap_cumLoss_sum (t : JobTracker J) (k : Nat) :
    ∀ l : List Nat,
      ((l.filterMap (t.buckets k)).map (fun b => b.cum_loss_time)).sum =
      (l.map (t.cumLossAt k)).sum
  | [] => rfl
  | m :: l => by
    rw [List.map_cons, List.sum_cons, List.filterMap_cons]
    cases hb : t.buckets k m with
    | none =>
      rw [filterMap_cumLoss_sum t k l, cumLossAt_eq, hb]
      simp
    | some b =>
      rw [List.map_cons, List.sum_cons, filterMap_cumLoss_sum t k l, cumLossAt_eq, hb]

theorem range_drop_two_eq_filter :
    ∀ n : Nat, (List.range n).drop 2 = (List.range n).filter (fun m => decide (2 ≤ m))
  | 0 => by decide
  | 1 => by decide
  | 2 => by decide
  | n + 3 => by
    have ih := range_drop_two_eq_filter (n + 2)
    rw [List.range_succ, List.drop_append_of_le_length (by rw [List.length_range]; omega),
      List.filter_append, ih]
    congr 1
    rw [List.filter_cons, List.filter_nil, if_pos (by simp)]

theorem lossRow_spec [DecidableEq J] {t : JobTracker J} {k : Nat}
    (h2 : (t.buckets k 1).isSome = true) (hf : (t.buckets k (t.N - 1)).isSome = true) :
    t.lossRow k = some
      ((t.achievedAt k 1).filter (fun j => decide (j ∉ t.achievedAt k (t.N - 1))),
        (((List.range t.N).filter (fun m => decide (2 ≤ m))).map (t.cumLossAt k)).sum) := by
  unfold JobTracker.lossRow
  cases hfi : t.buckets k (t.N - 1) with
  | none =>
    rw [hfi] at hf
    simp at hf
  | some installed =>
    cases hsi : t.buckets k 1 with
    | none =>
      rw [hsi] at h2
      simp at h2
    | some second =>
      dsimp only
      rw [range_drop_two_eq_filter, filterMap_cumLoss_sum]
      apply congrArg
      apply congrArg (fun x => (x, _))
      rw [achievedAt_eq, achievedAt_eq, hfi, hsi]

theorem mem_flatten_map_fst {α β : Type} (f : Nat → List α × β) (M : Nat) (j : α) :
    (j ∈ (((List.range M).map f).map Prod.fst).flatten) ↔ ∃ k, k < M ∧ j ∈ (f k).1 := by
  rw [List.map_map, List.mem_flatten]
  constructor
  · rintro ⟨l, hl, hjl⟩
    rw [List.mem_map] at hl
    obtain ⟨k, hk, rfl⟩ := hl
    exact ⟨k, List.mem_range.mp hk, hjl⟩
  · rintro ⟨k, hk, hj⟩
    exact ⟨(f k).1, List.mem_map_of_mem _ (List.mem_range.mpr hk), hj⟩

theorem lossRows_spec [DecidableEq J] {t : JobTracker J} :
    ∀ ks : List Nat,
      (∀ k ∈ ks, (t.buckets k 1).isSome = true) →
      (∀ k ∈ ks, (t.buckets k (t.N - 1)).isSome = true) →
      t.lossRows ks = some (ks.map (fun k =>
        ((t.achievedAt k 1).filter (fun j => decide (j ∉ t.achievedAt k (t.N - 1))),
          (((List.range t.N).filter (fun m => decide (2 ≤ m))).map (t.cumLossAt k)).sum)))
  | [], _, _ => rfl
  | k :: ks, h2, hf => by
    unfold JobTracker.lossRows
    rw [lossRow_spec (h2 k (List.mem_cons_self k ks)) (hf k (List.mem_cons_self k ks)),
      lossRows_spec ks (fun k' hk' => h2 k' (List.mem_cons_of_mem k hk'))
        (fun k' hk' => hf k' (List.mem_cons_of_mem k hk'))]
    rfl

end LossLemmas

/-- C4: for a tracker whose rows all have applicable buckets at milestone
indices 1 and `N - 1`, `calc_stats_of_loss` returns the jobs present in some
kind's milestone-1 bucket but absent from that same kind's final bucket,
together with the average loss time: the sum of `cum_loss_time` over all
applicable buckets at milestone index 2 and beyond across every row, divided
by the number of lost jobs, and zero when there are none. -/
theorem calc_stats_of_loss_spec {J : Type} [DecidableEq J] (t : JobTracker J)
    (hN2 : 2 ≤ t.N)
    (h2 : ∀ k, k < t.M → (t.buckets k 1).isSome = true)
    (hf : ∀ k, k < t.M → (t.buckets k (t.N - 1)).isSome = true) :
    ∃ lost avg, t.calc_stats_of_loss = some (lost, avg) ∧
      (∀ j, j ∈ lost ↔
        ∃ k, k < t.M ∧ j ∈ t.achievedAt k 1 ∧ j ∉ t.achievedAt k (t.N - 1)) ∧
      avg = (if lost.length = 0 then 0 else specTotalLossTime t / (lost.length : Int)) ∧
      (lost = [] → avg = 0) := by
  have hrows := lossRows_spec (t := t) (List.range t.M)
    (fun k hk => h2 k (List.mem_range.mp hk)) (fun k hk => hf k (List.mem_range.mp hk))
  unfold JobTracker.calc_stats_of_loss
  rw [hrows]
  dsimp only
  refine ⟨_, _, rfl, ?_, ?_, ?_⟩
  · intro j
    rw [mem_flatten_map_fst]
    constructor
    · rintro ⟨k, hk, hj⟩
      dsimp only at hj
      rw [List.mem_filter, decide_eq_true_eq] at hj
      exact ⟨k, hk, hj.1, hj.2⟩
    · rintro ⟨k, hk, hj1, hj2⟩
      refine ⟨k, hk, ?_⟩
      dsimp only
      rw [List.mem_filter, decide_eq_true_eq]
      exact ⟨hj1, hj2⟩
  · simp only [List.map_map]
    unfold specTotalLossTime
    rfl
  · intro hl
    rw [hl]
    rfl

/-- Witness for C4 at the empty tracker built from the real mask: no lost jobs
and a zero average loss time. -/
theorem calc_stats_of_loss_spec_witness :
    build_job_tracker.calc_stats_of_loss = some ([], 0) := by
  obtain ⟨lost, avg, heq, hmem, _, hzero⟩ :=
    calc_stats_of_loss_spec build_job_tracker (by decide) (by decide) (by decide)
  have hl : lost = [] := by
    rw [List.eq_nil_iff_forall_not_mem]
    intro j hj
    obtain ⟨k, hk, hj1, _⟩ := (hmem j).mp hj
    rw [show build_job_tracker.achievedAt k 1 = [] from achievedAt_new 3 5 buildMask k 1] at hj1
    exact absurd hj1 (List.not_mem_nil j)
  subst hl
  rw [hzero rfl] at heq
  exact heq

section AnalysisLemmas

theorem analyzeLoop_cons (job : Job) (m : Milestone) (rest : List Milestone)
    (st : AnalysisState) :
    analyzeLoop job (m :: rest) st =
      (match analyzeStep job st m with
       | Except.error e => Except.error e
       | Except.ok st' => analyzeLoop job rest st') := rfl

theorem analyzeLoop_cons_ok {job : Job} {st st' : AnalysisState} {m : Milestone}
    (h : analyzeStep job st m = Except.ok st') (rest : List Milestone) :
    analyzeLoop job (m :: rest) st = analyzeLoop job rest st' := by
  rw [analyzeLoop_cons, h]

theorem analyzeLoop_cons_err {job : Job} {st : AnalysisState} {m : Milestone}
    {e : JobAnalysisError} (h : analyzeStep job st m = Except.error e)
    (rest : List Milestone) :
    analyzeLoop job (m :: rest) st = Except.error e := by
  rw [analyzeLoop_cons, h]

theorem analyzeStep_none_skip {job : Job} {st : AnalysisState} {m : Milestone}
    (hp : st.in_progress = true) (hd : job.milestone_dates.get m = none)
    (hm : m ≠ Milestone.contingencySigned) :
    analyzeStep job st m = Except.ok { st with in_progress := false } := by
  simp only [analyzeStep]
  rw [hd, if_pos hp]
  dsimp only
  rw [if_pos hm]

theorem analyzeStep_none_cont {job : Job} {st : AnalysisState}
    (hp : st.in_progress = true)
    (hd : job.milestone_dates.get Milestone.contingencySigned = none) :
    analyzeStep job st Milestone.contingencySigned = Except.ok st := by
  simp only [analyzeStep]
  rw [hd, if_pos hp]
  dsimp only
  rw [if_neg (by simp)]

theorem analyzeStep_frozen_some {job : Job} {st : AnalysisState} {m : Milestone}
    {d : Timestamp} (hp : st.in_progress = false)
    (hd : job.milestone_dates.get m = some d) :
    analyzeStep job st m =
      Except.error (JobAnalysisError.skippedDates st.current_milestone) := by
  simp only [analyzeStep]
  rw [hd, if_neg (by simp [hp])]

theorem analyzeStep_frozen_none {job : Job} {st : AnalysisState} {m : Milestone}
    (hp : st.in_progress = false) (hd : job.milestone_dates.get m = none) :
    analyzeStep job st m = Except.ok st := by
  simp only [analyzeStep]
  rw [hd, if_neg (by simp [hp])]

theorem analyzeStep_some_err_cont {job : Job} {st : AnalysisState} {d : Timestamp}
    (hp : st.in_progress = true)
    (hd : job.milestone_dates.get Milestone.contingencySigned = some d)
    (hclaim : job.insurance_claim_number = none) :
    analyzeStep job st Milestone.contingencySigned =
      Except.error JobAnalysisError.contingencyWithoutInsurance := by
  simp only [analyzeStep]
  rw [hd, if_pos hp]
  dsimp only
  rw [if_pos ⟨by trivial, hclaim⟩]

theorem analyzeStep_some_ok {job : Job} {st : AnalysisState} {m : Milestone}
    {d : Timestamp} (hp : st.in_progress = true)
    (hd : job.milestone_dates.get m = some d)
    (hcont : ¬(m = Milestone.contingencySigned ∧ job.insurance_claim_number = none))
    (hord : ∀ p, st.previous_date = some p → p ≤ d) :
    analyzeStep job st m = Except.ok
      { previous_date := some d
        current_milestone := m
        in_progress := st.in_progress
        kind :=
          if m = Milestone.contractSigned
              ∧ job.milestone_dates.contingency_date = none
              ∧ job.insurance_claim_number.isSome = true then
            JobKind.insuranceWithoutContingency
          else st.kind } := by
  simp only [analyzeStep]
  rw [hd, if_pos hp]
  dsimp only
  rw [if_neg hcont]
  by_cases hre : m = Milestone.contractSigned ∧ job.milestone_dates.contingency_date = none
      ∧ job.insurance_claim_number.isSome = true
  · rw [if_pos hre, if_pos hre]
    dsimp only
    cases hprev : st.previous_date with
    | none => rfl
    | some p =>
      dsimp only
      rw [if_neg (not_lt.mpr (hord p hprev))]
  · rw [if_neg hre, if_neg hre]
    dsimp only
    cases hprev : st.previous_date with
    | none => rfl
    | some p =>
      dsimp only
      rw [if_neg (not_lt.mpr (hord p hprev))]

theorem analyzeStep_some_err_order {job : Job} {st : AnalysisState} {m : Milestone}
    {d p : Timestamp} (hp : st.in_progress = true)
    (hd : job.milestone_dates.get m = some d)
    (hcont : ¬(m = Milestone.contingencySigned ∧ job.insurance_claim_number = none))
    (hprev : st.previous_date = some p) (hlt : d < p) :
    analyzeStep job st m = Except.error (JobAnalysisError.outOfOrderDates (some m)) := by
  simp only [analyzeStep]
  rw [hd, if_pos hp]
  dsimp only
  rw [if_neg hcont]
  by_cases hre : m = Milestone.contractSigned ∧ job.milestone_dates.contingency_date = none
      ∧ job.insurance_claim_number.isSome = true
  · rw [if_pos hre]
    dsimp only
    rw [hprev]
    dsimp only
    rw [if_pos hlt]
  · rw [if_neg hre]
    dsimp only
    rw [hprev]
    dsimp only
    rw [if_pos hlt]

theorem analyzeStep_ok_inv {job : Job} {st st₁ : AnalysisState} {m : Milestone}
    {d : Timestamp} (hp : st.in_progress = true)
    (hd : job.milestone_dates.get m = some d)
    (h : analyzeStep job st m = Except.ok st₁) :
    st₁.previous_date = some d ∧ (∀ p, st.previous_date = some p → p ≤ d) := by
  simp only [analyzeStep] at h
  rw [hd, if_pos hp] at h
  dsimp only at h
  by_cases hcont : m = Milestone.contingencySigned ∧ job.insurance_claim_number = none
  · rw [if_pos hcont] at h
    exact absurd h (by simp)
  · rw [if_neg hcont] at h
    by_cases hre : m = Milestone.contractSigned ∧ job.milestone_dates.contingency_date = none
        ∧ job.insurance_claim_number.isSome = true
    · rw [if_pos hre] at h
      dsimp only at h
      cases hprev : st.previous_date with
      | none =>
        rw [hprev] at h
        dsimp only at h
        cases h
        exact ⟨rfl, fun p hps => absurd hps (by simp)⟩
      | some p =>
        rw [hprev] at h
        dsimp only at h
        by_cases hlt : d < p
        · rw [if_pos hlt] at h
          exact absurd h (by simp)
        · rw [if_neg hlt] at h
          cases h
          refine ⟨rfl, fun q hq => ?_⟩
          cases hq
          exact not_lt.mp hlt
    · rw [if_neg hre] at h
      dsimp only at h
      cases hprev : st.previous_date with
      | none =>
        rw [hprev] at h
        dsimp only at h
        cases h
        exact ⟨rfl, fun p hps => absurd hps (by simp)⟩
      | some p =>
        rw [hprev] at h
        dsimp only at h
        by_cases hlt : d < p
        · rw [if_pos hlt] at h
          exact absurd h (by simp)
        · rw [if_neg hlt] at h
          cases h
          refine ⟨rfl, fun q hq => ?_⟩
          cases hq
          exact not_lt.mp hlt

theorem analyzeLoop_frozen (job : Job) :
    ∀ (ms : List Milestone) (st : AnalysisState), st.in_progress = false →
      analyzeLoop job ms st =
        (if ms.all (fun m => (job.milestone_dates.get m).isNone) = true then Except.ok st
         else Except.error (JobAnalysisError.skippedDates st.current_milestone))
  | [], st, hp => by simp [analyzeLoop]
  | m :: rest, st, hp => by
    cases hd : job.milestone_dates.get m with
    | some d =>
      rw [analyzeLoop_cons_err (analyzeStep_frozen_some hp hd),
        if_neg (by simp [List.all_cons, hd])]
    | none =>
      rw [analyzeLoop_cons_ok (analyzeStep_frozen_none hp hd),
        analyzeLoop_frozen job rest st hp]
      simp only [List.all_cons, hd, Option.isNone_none, Bool.true_and]

theorem analyzeLoop_dates_mono (job : Job) :
    ∀ (ms : List Milestone) (st st' : AnalysisState),
      analyzeLoop job ms st = Except.ok st' →
      (∀ m ∈ ms, ∀ x, job.milestone_dates.get m = some x →
        ∀ p, st.previous_date = some p → p ≤ x) ∧
      List.Pairwise (fun a b => ∀ x y, job.milestone_dates.get a = some x →
        job.milestone_dates.get b = some y → x ≤ y) ms
  | [], st, st', h => ⟨by simp, List.Pairwise.nil⟩
  | m :: rest, st, st', h => by
    rw [analyzeLoop_cons] at h
    cases hstep : analyzeStep job st m with
    | error e =>
      rw [hstep] at h
      exact absurd h (by simp)
    | ok st₁ =>
      rw [hstep] at h
      dsimp only at h
      cases hp : st.in_progress with
      | false =>
        cases hd : job.milestone_dates.get m with
        | some d =>
          rw [analyzeStep_frozen_some hp hd] at hstep
          exact absurd hstep (by simp)
        | none =>
          have hst₁ : st₁ = st := by
            rw [analyzeStep_frozen_none hp hd] at hstep
            cases hstep
            rfl
          subst hst₁
          obtain ⟨ih1, ih2⟩ := analyzeLoop_dates_mono job rest st₁ st' h
          refine ⟨?_, List.Pairwise.cons ?_ ih2⟩
          · intro m' hm' x hx p hp'
            rcases List.mem_cons.mp hm' with rfl | hm'
            · rw [hd] at hx
              exact absurd hx (by simp)
            · exact ih1 m' hm' x hx p hp'
          · intro b hb x y hx hy
            rw [hd] at hx
            exact absurd hx (by simp)
      | true =>
        cases hd : job.milestone_dates.get m with
        | none =>
          have hprev₁ : st₁.previous_date = st.previous_date := by
            by_cases hm : m = Milestone.contingencySigned
            · subst hm
              rw [analyzeStep_none_cont hp hd] at hstep
              cases hstep
              rfl
            · rw [analyzeStep_none_skip hp hd hm] at hstep
              cases hstep
              rfl
          obtain ⟨ih1, ih2⟩ := analyzeLoop_dates_mono job rest st₁ st' h
          refine ⟨?_, List.Pairwise.cons ?_ ih2⟩
          · intro m' hm' x hx p hp'
            rcases List.mem_cons.mp hm' with rfl | hm'
            · rw [hd] at hx
              exact absurd hx (by simp)
            · refine ih1 m' hm' x hx p ?_
              rw [hprev₁, hp']
          · intro b hb x y hx hy
            rw [hd] at hx
            exact absurd hx (by simp)
        | some d =>
          obtain ⟨hprev₁, hord⟩ := analyzeStep_ok_inv hp hd hstep
          obtain ⟨ih1, ih2⟩ := analyzeLoop_dates_mono job rest st₁ st' h
          refine ⟨?_, List.Pairwise.cons ?_ ih2⟩
          · intro m' hm' x hx p hp'
            rcases List.mem_cons.mp hm' with rfl | hm'
            · rw [hd] at hx
              cases hx
              exact hord p hp'
            · have hdx : d ≤ x := ih1 m' hm' x hx d hprev₁
              have hpd : p ≤ d := hord p hp'
              exact le_trans hpd hdx
          · intro b hb x y hx hy
            rw [hd] at hx
            cases hx
            exact ih1 b hb y hy d hprev₁

theorem analyze_ok_inv {job : Job} {aj : AnalyzedJob} (h : analyze job = Except.ok aj) :
    ∃ st, analyzeLoop job (Milestone.orderedList.drop 1) (initState job) = Except.ok st ∧
      aj = mkAnalyzed job st := by
  unfold analyze at h
  by_cases hins : job.insurance_checkbox = false ∧
      (job.insurance_company_name.isSome = true ∨ job.insurance_claim_number.isSome = true)
  · rw [if_pos hins] at h
    exact absurd h (by simp)
  · rw [if_neg hins] at h
    cases hloop : analyzeLoop job (Milestone.orderedList.drop 1) (initState job) with
    | error e =>
      rw [hloop] at h
      exact absurd h (by simp)
    | ok st =>
      rw [hloop] at h
      dsimp only at h
      refine ⟨st, rfl, ?_⟩
      cases hld : job.milestone_dates.loss_date with
      | none =>
        rw [hld] at h
        dsimp only at h
        cases h
        rfl
      | some l =>
        rw [hld] at h
        dsimp only at h
        cases hprev : st.previous_date with
        | none =>
          rw [hprev] at h
          dsimp only at h
          cases h
          rfl
        | some p =>
          rw [hprev] at h
          dsimp only at h
          by_cases hlt : l < p
          · rw [if_pos hlt] at h
            exact absurd h (by simp)
          · rw [if_neg hlt] at h
            cases h
            rfl

theorem analyze_loop_err {job : Job} {e : JobAnalysisError}
    (hins : ¬(job.insurance_checkbox = false ∧
      (job.insurance_company_name.isSome = true ∨ job.insurance_claim_number.isSome = true)))
    (h : analyzeLoop job (Milestone.orderedList.drop 1) (initState job) = Except.error e) :
    analyze job = Except.error (job, e) := by
  unfold analyze
  rw [if_neg hins, h]

end AnalysisLemmas

/-- C5: while retracing is in progress, an absent timestamp at a milestone
other than ContingencySigned ends progression while an absent
ContingencySigned timestamp does not; once progression has ended, any later
milestone with a present timestamp makes the loop fail with
`SkippedDates(current_milestone)`, the last milestone reached before the
gap. -/
theorem analysis_gap_progression_spec :
    (∀ (job : Job) (st : AnalysisState) (m : Milestone),
      st.in_progress = true → job.milestone_dates.get m = none →
      m ≠ Milestone.contingencySigned →
      analyzeStep job st m = Except.ok { st with in_progress := false }) ∧
    (∀ (job : Job) (st : AnalysisState),
      st.in_progress = true →
      job.milestone_dates.get Milestone.contingencySigned = none →
      analyzeStep job st Milestone.contingencySigned = Except.ok st) ∧
    (∀ (job : Job) (st : AnalysisState) (ms : List Milestone),
      st.in_progress = false →
      (∃ m ∈ ms, (job.milestone_dates.get m).isSome = true) →
      analyzeLoop job ms st =
        Except.error (JobAnalysisError.skippedDates st.current_milestone)) := by
  refine ⟨fun job st m hp hd hm => analyzeStep_none_skip hp hd hm,
    fun job st hp hd => analyzeStep_none_cont hp hd, ?_⟩
  intro job st ms hp hex
  rw [analyzeLoop_frozen job ms st hp, if_neg ?_]
  intro hall
  obtain ⟨m, hm, hsome⟩ := hex
  have hnone := List.all_eq_true.mp hall m hm
  rw [Option.isNone_iff_eq_none] at hnone
  rw [hnone] at hsome
  simp at hsome

/-- Witness for C5: an in-progress state is frozen by the absent contract date
of `jobW5`, is unchanged by its absent contingency date, and a frozen state
meeting the present install date yields `SkippedDates(AppointmentMade)`. -/
theorem analysis_gap_progression_spec_witness :
    analyzeStep jobW5 stW Milestone.contractSigned =
      Except.ok { stW with in_progress := false } ∧
    analyzeStep jobW5 stW Milestone.contingencySigned = Except.ok stW ∧
    analyzeLoop jobW5 [Milestone.installed] stWf =
      Except.error (JobAnalysisError.skippedDates Milestone.appointmentMade) := by
  refine ⟨analysis_gap_progression_spec.1 jobW5 stW Milestone.contractSigned rfl rfl
      (by decide),
    analysis_gap_progression_spec.2.1 jobW5 stW rfl rfl, ?_⟩
  exact analysis_gap_progression_spec.2.2 jobW5 stWf [Milestone.installed] rfl
    ⟨Milestone.installed, by simp, rfl⟩

/-- C6 counterexample: `jobC6` has a present contingency date (3) strictly
earlier than the previously recorded appointment date (5), yet analysis fails
with `ContingencyWithoutInsurance`, not `OutOfOrderDates(Some(milestone))`. -/
theorem out_of_order_dates_claim_cex :
    jobC6.milestone_dates.get Milestone.appointmentMade = some 5 ∧
    jobC6.milestone_dates.get Milestone.contingencySigned = some 3 ∧
    (3 : Timestamp) < 5 ∧
    analyze jobC6 = Except.error (jobC6, JobAnalysisError.contingencyWithoutInsurance) ∧
    JobAnalysisError.contingencyWithoutInsurance ≠
      JobAnalysisError.outOfOrderDates (some Milestone.contingencySigned) := by
  exact ⟨rfl, rfl, by decide, rfl, by decide⟩

/-- C6 amended: while in progress, a present timestamp strictly earlier than
the previously recorded date fails with `OutOfOrderDates(Some(milestone))`
provided the milestone is not a ContingencySigned with a missing claim number
(which errors first); an equal timestamp is accepted; and a loss date
strictly earlier than the last recorded date makes the analysis fail with
`OutOfOrderDates(None)` when the milestone loop itself succeeded. -/
theorem out_of_order_dates_amended :
    (∀ (job : Job) (st : AnalysisState) (m : Milestone) (d p : Timestamp),
      st.in_progress = true → job.milestone_dates.get m = some d →
      st.previous_date = some p → d < p →
      ¬(m = Milestone.contingencySigned ∧ job.insurance_claim_number = none) →
      analyzeStep job st m = Except.error (JobAnalysisError.outOfOrderDates (some m))) ∧
    (∀ (job : Job) (st : AnalysisState) (m : Milestone) (p : Timestamp),
      st.in_progress = true → job.milestone_dates.get m = some p →
      st.previous_date = some p →
      ¬(m = Milestone.contingencySigned ∧ job.insurance_claim_number = none) →
      ∃ st', analyzeStep job st m = Except.ok st' ∧ st'.previous_date = some p) ∧
    (∀ (job : Job) (st : AnalysisState) (l p : Timestamp),
      ¬(job.insurance_checkbox = false ∧
        (job.insurance_company_name.isSome = true ∨
          job.insurance_claim_number.isSome = true)) →
      analyzeLoop job (Milestone.orderedList.drop 1) (initState job) = Except.ok st →
      st.previous_date = some p → job.milestone_dates.loss_date = some l → l < p →
      analyze job = Except.error (job, JobAnalysisError.outOfOrderDates none)) := by
  refine ⟨fun job st m d p hp hd hprev hlt hcont =>
      analyzeStep_some_err_order hp hd hcont hprev hlt, ?_, ?_⟩
  · intro job st m p hp hd hprev hcont
    refine ⟨_, analyzeStep_some_ok hp hd hcont (fun q hq => ?_), rfl⟩
    rw [hprev] at hq
    cases hq
    exact le_refl p
  · intro job st l p hins hloop hprev hld hlt
    unfold analyze
    rw [if_neg hins, hloop]
    dsimp only
    rw [hld]
    dsimp only
    rw [hprev]
    dsimp only
    rw [if_pos hlt]

/-- Witness for C6's amended statement: an out-of-order contract date on
`jobW6a` fails, an equal appointment date is accepted, and the early loss
date of `jobW6c` fails with `OutOfOrderDates(None)`. -/
theorem out_of_order_dates_amended_witness :
    analyzeStep jobW6a stW Milestone.contractSigned =
      Except.error (JobAnalysisError.outOfOrderDates (some Milestone.contractSigned)) ∧
    (analyzeStep jobW6a stW Milestone.appointmentMade).isOk = true ∧
    analyze jobW6c = Except.error (jobW6c, JobAnalysisError.outOfOrderDates none) := by
  refine ⟨out_of_order_dates_amended.1 jobW6a stW Milestone.contractSigned 3 5 rfl rfl rfl
      (by decide) (by decide), ?_, ?_⟩
  · obtain ⟨st', heq, _⟩ := out_of_order_dates_amended.2.1 jobW6a stW
      Milestone.appointmentMade 5 rfl rfl rfl (by decide)
    rw [heq]
    rfl
  · exact out_of_order_dates_amended.2.2 jobW6c
      { previous_date := some 5
        current_milestone := Milestone.appointmentMade
        in_progress := false
        kind := JobKind.insuranceWithContingency } 2 5 (by decide) (by rfl) rfl rfl (by decide)

/-- C8: for every job whose analysis succeeds, the emitted timestamps vector
is non-decreasing across every pair of entries that are both present. -/
theorem analyzed_timestamps_monotone (job : Job) (aj : AnalyzedJob)
    (h : analyze job = Except.ok aj) :
    ∀ (i j : Nat) (x y : Timestamp), i ≤ j → aj.timestamps[i]? = some (some x) →
      aj.timestamps[j]? = some (some y) → x ≤ y := by
  obtain ⟨st, hloop, rfl⟩ := analyze_ok_inv h
  have hmono := (analyzeLoop_dates_mono job _ _ _ hloop).2
  have hall : List.Pairwise (fun a b => ∀ x y, job.milestone_dates.get a = some x →
      job.milestone_dates.get b = some y → x ≤ y) Milestone.orderedList := by
    refine List.Pairwise.cons ?_ hmono
    intro b hb x y hx hy
    exact absurd hx (by simp [MilestoneDates.get])
  have hsub : List.Pairwise (fun a b => ∀ x y, job.milestone_dates.get a = some x →
      job.milestone_dates.get b = some y → x ≤ y)
      (Milestone.orderedList.takeWhile
        (fun s => decide (s.into_int ≤ st.current_milestone.into_int))) :=
    List.Pairwise.sublist (List.takeWhile_sublist _) hall
  have hts : List.Pairwise (fun oa ob => ∀ x y, oa = some x → ob = some y → x ≤ y)
      (mkAnalyzed job st).timestamps := by
    show List.Pairwise _ ((Milestone.orderedList.takeWhile
      (fun s => decide (s.into_int ≤ st.current_milestone.into_int))).map
        job.milestone_dates.get)
    exact List.pairwise_map.mpr hsub
  intro i j x y hij hx hy
  rcases Nat.eq_or_lt_of_le hij with rfl | hij'
  · rw [hx] at hy
    cases hy
    exact le_refl x
  · rw [List.getElem?_eq_some_iff] at hx hy
    obtain ⟨hi, hx⟩ := hx
    obtain ⟨hj, hy⟩ := hy
    exact (List.pairwise_iff_getElem.mp hts) i j hi hj hij' x y hx hy

/-- Witness for C8 at `jobW8`, whose analysis succeeds with timestamps
`[none, 1, 2, 3, 4]`. -/
theorem analyzed_timestamps_monotone_witness :
    analyze jobW8 = Except.ok ajW8 ∧ (1 : Timestamp) ≤ 3 := by
  have h : analyze jobW8 = Except.ok ajW8 := rfl
  exact ⟨h, analyzed_timestamps_monotone jobW8 ajW8 h 1 3 1 3 (by decide) rfl rfl⟩

/-- C9 counterexample: `jobC9` has the insurance flag unset and a contingency
date set, yet analysis fails with `SkippedDates(LeadAcquired)` (its
appointment date is absent), not `ContingencyWithoutInsurance`. -/
theorem contingency_without_insurance_claim_cex :
    jobC9.insurance_checkbox = false ∧
    jobC9.milestone_dates.contingency_date = some 2 ∧
    analyze jobC9 = Except.error (jobC9, JobAnalysisError.skippedDates
      Milestone.leadAcquired) ∧
    JobAnalysisError.skippedDates Milestone.leadAcquired ≠
      JobAnalysisError.contingencyWithoutInsurance := by
  exact ⟨rfl, rfl, rfl, by decide⟩

/-- C9 amended: a job with the insurance flag unset, no insurance company or
claim number on record, a present appointment date and a present contingency
date fails with `ContingencyWithoutInsurance`. -/
theorem contingency_without_insurance_amended (job : Job) (a c : Timestamp)
    (hflag : job.insurance_checkbox = false)
    (hcomp : job.insurance_company_name = none)
    (hclaim : job.insurance_claim_number = none)
    (happt : job.milestone_dates.appointment_date = some a)
    (hcont : job.milestone_dates.contingency_date = some c) :
    analyze job = Except.error (job, JobAnalysisError.contingencyWithoutInsurance) := by
  have hins : ¬(job.insurance_checkbox = false ∧
      (job.insurance_company_name.isSome = true ∨
        job.insurance_claim_number.isSome = true)) := by
    rw [hcomp, hclaim]
    simp
  have hstep1 := @analyzeStep_some_ok job (initState job) Milestone.appointmentMade a
    rfl happt (fun hc => absurd hc.1 (by decide))
    (fun p hp => absurd hp (by simp [initState]))
  have hstep2 := @analyzeStep_some_err_cont job
    { previous_date := some a
      current_milestone := Milestone.appointmentMade
      in_progress := (initState job).in_progress
      kind :=
        if Milestone.appointmentMade = Milestone.contractSigned
            ∧ job.milestone_dates.contingency_date = none
            ∧ job.insurance_claim_number.isSome = true then
          JobKind.insuranceWithoutContingency
        else (initState job).kind } c rfl hcont hclaim
  refine analyze_loop_err hins ?_
  show analyzeLoop job [Milestone.appointmentMade, Milestone.contingencySigned,
    Milestone.contractSigned, Milestone.installed] (initState job) = _
  rw [analyzeLoop_cons_ok hstep1, analyzeLoop_cons_err hstep2]

/-- Witness for C9's amended statement at `jobW9`. -/
theorem contingency_without_insurance_amended_witness :
    analyze jobW9 =
      Except.error (jobW9, JobAnalysisError.contingencyWithoutInsurance) := by
  exact contingency_without_insurance_amended jobW9 1 2 rfl rfl rfl rfl rfl

/-- C7 counterexample: `jobC7` satisfies every condition named by the claim
(insurance flag, appointment date, no contingency date, in-order contract
date, claim number present) yet analysis returns an error, because its
install date precedes its contract date. -/
theorem insurance_without_contingency_claim_cex :
    jobC7.insurance_checkbox = true ∧
    jobC7.milestone_dates.appointment_date = some 1 ∧
    jobC7.milestone_dates.contingency_date = none ∧
    jobC7.milestone_dates.contract_date = some 3 ∧
    (1 : Timestamp) ≤ 3 ∧
    jobC7.insurance_claim_number.isSome = true ∧
    analyze jobC7 =
      Except.error (jobC7, JobAnalysisError.outOfOrderDates (some Milestone.installed)) := by
  exact ⟨rfl, rfl, rfl, rfl, by decide, rfl, rfl⟩

/-- C7 amended: a job with the insurance flag set, a claim number, an
appointment date, no contingency date, a contract date not earlier than the
appointment date, an install date absent or not earlier than the contract
date, and a loss date absent or not earlier than every present milestone
date, analyzes successfully with kind `InsuranceWithoutContingency`. -/
theorem insurance_without_contingency_amended (job : Job) (a c : Timestamp)
    (hflag : job.insurance_checkbox = true)
    (hclaim : job.insurance_claim_number.isSome = true)
    (happt : job.milestone_dates.appointment_date = some a)
    (hcont : job.milestone_dates.contingency_date = none)
    (hcontract : job.milestone_dates.contract_date = some c)
    (hac : a ≤ c)
    (hinstall : ∀ i, job.milestone_dates.install_date = some i → c ≤ i)
    (hloss : ∀ l, job.milestone_dates.loss_date = some l →
      c ≤ l ∧ ∀ i, job.milestone_dates.install_date = some i → i ≤ l) :
    ∃ aj, analyze job = Except.ok aj ∧ aj.kind = JobKind.insuranceWithoutContingency := by
  obtain ⟨s, hs⟩ := Option.isSome_iff_exists.mp hclaim
  obtain ⟨jnid, ⟨d1, d2, d3, d4, d5⟩, rep, flag, claimNo, comp, jobno, cust⟩ := job
  dsimp only at hflag hs happt hcont hcontract hinstall hloss
  subst hflag hs happt hcont hcontract
  have hins : ¬((true : Bool) = false ∧
      (comp.isSome = true ∨ (Option.some s).isSome = true)) := by simp
  have hstep1 : analyzeStep
        ⟨jnid, ⟨some a, none, some c, d4, d5⟩, rep, true, some s, comp, jobno, cust⟩
        { previous_date := none
          current_milestone := Milestone.leadAcquired
          in_progress := true
          kind := JobKind.insuranceWithContingency }
        Milestone.appointmentMade = Except.ok
        { previous_date := some a
          current_milestone := Milestone.appointmentMade
          in_progress := true
          kind := JobKind.insuranceWithContingency } :=
    analyzeStep_some_ok rfl rfl (fun hc => absurd hc.1 (by decide))
      (fun p hp => absurd hp (by simp))
  have hstep2 : analyzeStep
      ⟨jnid, ⟨some a, none, some c, d4, d5⟩, rep, true, some s, comp, jobno, cust⟩
      { previous_date := some a
        current_milestone := Milestone.appointmentMade
        in_progress := true
        kind := JobKind.insuranceWithContingency }
      Milestone.contingencySigned = Except.ok
      { previous_date := some a
        current_milestone := Milestone.appointmentMade
        in_progress := true
        kind := JobKind.insuranceWithContingency } :=
    analyzeStep_none_cont rfl rfl
  have hstep3 : analyzeStep
      ⟨jnid, ⟨some a, none, some c, d4, d5⟩, rep, true, some s, comp, jobno, cust⟩
      { previous_date := some a
        current_milestone := Milestone.appointmentMade
        in_progress := true
        kind := JobKind.insuranceWithContingency }
      Milestone.contractSigned = Except.ok
      { previous_date := some c
        current_milestone := Milestone.contractSigned
        in_progress := true
        kind := JobKind.insuranceWithoutContingency } :=
    analyzeStep_some_ok rfl rfl (fun hc => absurd hc.1 (by decide))
      (fun p hp => by cases hp; exact hac)
  cases d4 with
  | none =>
    have hstep4 : analyzeStep
        ⟨jnid, ⟨some a, none, some c, none, d5⟩, rep, true, some s, comp, jobno, cust⟩
        { previous_date := some c
          current_milestone := Milestone.contractSigned
          in_progress := true
          kind := JobKind.insuranceWithoutContingency }
        Milestone.installed = Except.ok
        { previous_date := some c
          current_milestone := Milestone.contractSigned
          in_progress := false
          kind := JobKind.insuranceWithoutContingency } :=
      analyzeStep_none_skip rfl rfl (by decide)
    have hloop : analyzeLoop
        ⟨jnid, ⟨some a, none, some c, none, d5⟩, rep, true, some s, comp, jobno, cust⟩
        (Milestone.orderedList.drop 1)
        (initState ⟨jnid, ⟨some a, none, some c, none, d5⟩, rep, true, some s, comp,
          jobno, cust⟩) = Except.ok
        { previous_date := some c
          current_milestone := Milestone.contractSigned
          in_progress := false
          kind := JobKind.insuranceWithoutContingency } := by
      show analyzeLoop _ [Milestone.appointmentMade, Milestone.contingencySigned,
        Milestone.contractSigned, Milestone.installed]
        { previous_date := none
          current_milestone := Milestone.leadAcquired
          in_progress := true
          kind := JobKind.insuranceWithContingency } = _
      rw [analyzeLoop_cons_ok hstep1, analyzeLoop_cons_ok hstep2,
        analyzeLoop_cons_ok hstep3, analyzeLoop_cons_ok hstep4]
      rfl
    refine ⟨mkAnalyzed
      ⟨jnid, ⟨some a, none, some c, none, d5⟩, rep, true, some s, comp, jobno, cust⟩
      { previous_date := some c
        current_milestone := Milestone.contractSigned
        in_progress := false
        kind := JobKind.insuranceWithoutContingency }, ?_, rfl⟩
    unfold analyze
    rw [if_neg hins, hloop]
    dsimp only
    cases d5 with
    | none => rfl
    | some l =>
      obtain ⟨hcl, _⟩ := hloss l rfl
      dsimp only
      rw [if_neg (not_lt.mpr hcl)]
  | some i =>
    have hci : c ≤ i := hinstall i rfl
    have hstep4 : analyzeStep
        ⟨jnid, ⟨some a, none, some c, some i, d5⟩, rep, true, some s, comp, jobno, cust⟩
        { previous_date := some c
          current_milestone := Milestone.contractSigned
          in_progress := true
          kind := JobKind.insuranceWithoutContingency }
        Milestone.installed = Except.ok
        { previous_date := some i
          current_milestone := Milestone.installed
          in_progress := true
          kind := JobKind.insuranceWithoutContingency } :=
      analyzeStep_some_ok rfl rfl (fun hc => absurd hc.1 (by decide))
        (fun p hp => by cases hp; exact hci)
    have hloop : analyzeLoop
        ⟨jnid, ⟨some a, none, some c, some i, d5⟩, rep, true, some s, comp, jobno, cust⟩
        (Milestone.orderedList.drop 1)
        (initState ⟨jnid, ⟨some a, none, some c, some i, d5⟩, rep, true, some s, comp,
          jobno, cust⟩) = Except.ok
        { previous_date := some i
          current_milestone := Milestone.installed
          in_progress := true
          kind := JobKind.insuranceWithoutContingency } := by
      show analyzeLoop _ [Milestone.appointmentMade, Milestone.contingencySigned,
        Milestone.contractSigned, Milestone.installed]
        { previous_date := none
          current_milestone := Milestone.leadAcquired
          in_progress := true
          kind := JobKind.insuranceWithContingency } = _
      rw [analyzeLoop_cons_ok hstep1, analyzeLoop_cons_ok hstep2,
        analyzeLoop_cons_ok hstep3, analyzeLoop_cons_ok hstep4]
      rfl
    refine ⟨mkAnalyzed
      ⟨jnid, ⟨some a, none, some c, some i, d5⟩, rep, true, some s, comp, jobno, cust⟩
      { previous_date := some i
        current_milestone := Milestone.installed
        in_progress := true
        kind := JobKind.insuranceWithoutContingency }, ?_, rfl⟩
    unfold analyze
    rw [if_neg hins, hloop]
    dsimp only
    cases d5 with
    | none => rfl
    | some l =>
      obtain ⟨_, hil⟩ := hloss l rfl
      dsimp only
      rw [if_neg (not_lt.mpr (hil i rfl))]

/-- Witness for C7's amended statement at `jobW7`. -/
theorem insurance_without_contingency_amended_witness :
    (analyze jobW7).map (fun aj => aj.kind) =
      Except.ok JobKind.insuranceWithoutContingency := by
  obtain ⟨aj, h1, h2⟩ := insurance_without_contingency_amended jobW7 1 3 rfl rfl rfl rfl rfl
    (by decide)
    (fun i hi => by cases hi; decide)
    (fun l hl => by cases hl)
  rw [h1]
  rw [show Except.map (fun aj => aj.kind) (Except.ok aj) = Except.ok aj.kind from rfl, h2]

end Ahitool
